import Mathlib

/-!
Shallow embedding of the pyasn1 BER decoder
(`src/pyasn1/codec/ber/decoder.py`) over byte lists, together with proofs
about the decoder's behaviour.

Conventions of the embedding:
* an octet stream is a `List Nat` of byte values; reading returns the value
  together with the remaining suffix of the stream;
* Python generators that yield `SubstrateUnderrunError` markers and raise
  exceptions are modelled with `Except DecErr`; each `DecErr` constructor
  corresponds to one family of raised errors;
* unbounded `while` loops and the mutually recursive decoder functions take
  an explicit fuel argument; running out of fuel gives the distinguished
  error `DecErr.fuel`, which the Python code (which just keeps looping)
  never produces.
-/

set_option maxHeartbeats 1000000

namespace PyAsn1

/-- Errors of the decoder.  `underrun` models `SubstrateUnderrunError`
(raised or yielded), `malformed` the various structural `PyAsn1Error`
raises, `unknownTag` the `stErrorCondition` raise in
`SingleItemDecoder.__call__`, `lengthMismatch` the
"Read %s bytes instead of expected %s." raise, `excessComponents` the
"Excessive components decoded" raise, `missingRequired` the
"has uninitialized components" raise, `typeError` a Python-level crash
(attribute access on `None`/`noValue`), `fuel` is out-of-fuel (an artifact
of the embedding). -/
inductive DecErr where
  | underrun
  | malformed
  | unknownTag
  | lengthMismatch
  | excessComponents
  | missingRequired
  | typeError
  | fuel
deriving DecidableEq, Repr

/-- Modelled from the spec: a tag is a triple (class, format, id); the
decoder (`stDecodeTag`) stores the class as the masked bits `b &&& 0xC0`,
the format as `b &&& 0x20` (0 = primitive, 0x20 = constructed) and the id
as `b &&& 0x1F` or the long-form accumulator.  `pyasn1/type/tag.py` is not
under `src/`. -/
structure Tag where
  tagClass : Nat
  tagFormat : Nat
  tagId : Nat
deriving DecidableEq, Repr

/-- Modelled from the spec: a tag set is an ordered chain of tags
(`superTags`, innermost first, so that `tagSet[0]` is the tag closest to
the value) plus a base tag identifying the underlying type.
`pyasn1/type/tag.py` is not under `src/`. -/
structure TagSet where
  baseTag : Option Tag
  superTags : List Tag
deriving DecidableEq, Repr

/-- Modelled from the spec: dictionary/set identity of tags inside tag
sets uses the (class, id) pair, so that the primitive and constructed
encodings of the same type select the same payload decoder (the payload
decoders themselves inspect `tagSet[0].tagFormat`). -/
def tagKey (t : Tag) : Nat × Nat := (t.tagClass, t.tagId)

/-- Signature of a chain of tags used for map lookups and set membership. -/
def chainKey (ts : List Tag) : List (Nat × Nat) := ts.map tagKey

/-- `tag.tagFormatSimple` -/
def tagFormatSimple : Nat := 0x00

/-- `tag.tagFormatConstructed` -/
def tagFormatConstructed : Nat := 0x20

/-- `tag.tagClassUniversal` -/
def tagClassUniversal : Nat := 0x00

/-- `SingleItemDecoder.supportIndefLength` (the BER decoder allows the
indefinite length form). -/
def supportIndefLength : Bool := true

/-- Modelled from the spec: the streaming substrate contract (§4.1): reads
are all-or-nothing — either `n` bytes are delivered and the cursor
advances by `n`, or `Underrun` is produced.  A negative size reads the
whole remaining stream (Python `stream.read(-1)`).
`pyasn1/codec/streaming.py` is not under `src/`. -/
def readExact (n : Int) (bs : List Nat) : Except DecErr (List Nat × List Nat) :=
  if n < 0 then .ok (bs, [])
  else if n ≤ (bs.length : Int) then .ok (bs.take n.toNat, bs.drop n.toNat)
  else .error .underrun

/-- Long-form tag id decoding (`stDecodeTag`, the `tagId == 0x1F` loop):
each subsequent octet contributes its low 7 bits, the high bit marks
continuation. -/
def decodeLongTagId (acc : Nat) : List Nat → Except DecErr (Nat × List Nat)
  | [] => .error .underrun
  | b :: rest =>
      let acc2 := (acc <<< 7) ||| (b &&& 0x7F)
      if b &&& 0x80 ≠ 0 then decodeLongTagId acc2 rest
      else .ok (acc2, rest)

/-- Tag octet decoding (`stDecodeTag`): class = bits 7–6, format = bit 5,
id = bits 4–0, long form when id = 0x1F. -/
def decodeTag (bs : List Nat) : Except DecErr (Tag × List Nat) :=
  match bs with
  | [] => .error .underrun
  | b :: rest =>
      let tagClass := b &&& 0xC0
      let tagFormat := b &&& 0x20
      let tagId := b &&& 0x1F
      if tagId = 0x1F then
        match decodeLongTagId 0 rest with
        | .error e => .error e
        | .ok (tagId2, rest2) => .ok (⟨tagClass, tagFormat, tagId2⟩, rest2)
      else
        .ok (⟨tagClass, tagFormat, tagId⟩, rest)

/-- Length decoding (`stDecodeLength`): one octet `L0`; `L0 < 128` is the
definite short form, `L0 > 128` reads `L0 &&& 0x7F` octets folded
big-endian, `L0 = 128` is the indefinite form, represented as `-1`. -/
def decodeLength (bs : List Nat) : Except DecErr (Int × List Nat) :=
  match bs with
  | [] => .error .underrun
  | l0 :: rest =>
      if l0 < 128 then .ok ((l0 : Int), rest)
      else if l0 > 128 then
        let size := l0 &&& 0x7F
        match readExact (size : Int) rest with
        | .error e => .error e
        | .ok (encodedLength, rest2) =>
            let length := encodedLength.foldl (fun a b => (a <<< 8) ||| b) 0
            .ok ((length : Int), rest2)
      else .ok (-1, rest)

/-- Tag-then-length decoding plus the chain update of
`SingleItemDecoder.__call__`: with no incoming tag set a fresh
single-element chain is started, otherwise the freshly decoded tag is
prepended (`lastTag + tagSet`); then the length is decoded and the
indefinite form is rejected when `supportIndefLength` is off. -/
def decodeHeader (tagSetIn : Option TagSet) (bs : List Nat) :
    Except DecErr (TagSet × Int × List Nat) :=
  match decodeTag bs with
  | .error e => .error e
  | .ok (t, rest) =>
      let ts : TagSet :=
        match tagSetIn with
        | none => ⟨none, [t]⟩
        | some old => ⟨old.baseTag, t :: old.superTags⟩
      match decodeLength rest with
      | .error e => .error e
      | .ok (len, rest2) =>
          if len = -1 ∧ supportIndefLength = false then .error .malformed
          else .ok (ts, len, rest2)

/-- A Real value as produced by `RealPayloadDecoder.valueDecoder`:
`zero` is the float literal `0.0` yielded for empty content, `binary m e`
the tuple `(p, 2, e)` of the binary encoding, `inf`/`neginf` the special
values, `nr1 i` the tuple `(int(chunk), 10, 0)` and `decimal m e` the
value `m * 10^e` of `float(chunk)` (NR2/NR3). -/
inductive RealValue where
  | zero
  | binary (m : Int) (e : Int)
  | inf
  | neginf
  | nr1 (i : Int)
  | decimal (m : Int) (e : Int)
deriving DecidableEq, Repr

/-- Decoded ASN.1 values.  Each carries its tag set (pyasn1 values are
clones of the prototype or spec with the decoded `tagSet`).
`containerV` is the schemaless guessed container (`isRecord` selects
`protoRecordComponent` — Sequence/Set — over `protoSequenceComponent` —
SequenceOf/SetOf); `recordV` is a schema-guided record whose `comps` are
the `setComponentByPosition` assignments in call order. -/
inductive Asn1Value where
  | intV (ts : TagSet) (i : Int)
  | boolV (ts : TagSet) (b : Bool)
  | nullV (ts : TagSet)
  | oidV (ts : TagSet) (arcs : List Nat)
  | realV (ts : TagSet) (r : RealValue)
  | octetsV (ts : TagSet) (bs : List Nat)
  | bitsV (ts : TagSet) (bits : List Bool)
  | containerV (ts : TagSet) (isSet : Bool) (isRecord : Bool)
      (children : List Asn1Value)
  | recordV (ts : TagSet) (isSet : Bool)
      (comps : List (Nat × Option Asn1Value))

/-- The tag set carried by a decoded value. -/
def Asn1Value.tagSet : Asn1Value → TagSet
  | .intV ts _ => ts
  | .boolV ts _ => ts
  | .nullV ts => ts
  | .oidV ts _ => ts
  | .realV ts _ => ts
  | .octetsV ts _ => ts
  | .bitsV ts _ => ts
  | .containerV ts _ _ _ => ts
  | .recordV ts _ _ => ts

/-- Modelled from the spec: `effectiveTagSet` of a decoded non-Choice
value is its tag set (`pyasn1/type/base.py` is not under `src/`). -/
def Asn1Value.effectiveTagSet (v : Asn1Value) : TagSet := v.tagSet

/-- What one call of the single-item decoder yields: the end-of-octets
marker, a decoded value (`val none` is Python `None`, produced by the
schemaless constructed decoder for empty content), the `noValue` sentinel
(the `value` variable of `SingleItemDecoder.__call__` when no payload
value was produced), or — in substrate-collector mode — raw octets. -/
inductive DecOut where
  | eoo
  | val (v : Option Asn1Value)
  | noVal
  | raw (bs : List Nat)

/-- Caller-supplied ASN.1 schemas ("specs"), restricted to the universal
types of this embedding.  A named type of a Sequence/Set catalogue is a
spec plus its `isOptional` and `isDefaulted` flags. -/
inductive Asn1Spec where
  | integerSp
  | booleanSp
  | bitsSp
  | octetsSp
  | nullSp
  | oidSp
  | realSp
  | sequenceSp (nts : List (Asn1Spec × Bool × Bool))
  | setSp (nts : List (Asn1Spec × Bool × Bool))
  | sequenceOfSp (elem : Asn1Spec)

abbrev NamedType := Asn1Spec × Bool × Bool

/-- The `asn1Spec` argument of the single-item decoder: either a single
type template or a tag map (`tagmap.TagMap`, keyed here by chain
signature). -/
inductive SpecArg where
  | one (s : Asn1Spec)
  | map (m : List (List (Nat × Nat) × Asn1Spec))

/-- Universal tags of the embedded types (`pyasn1/type/univ.py` tag sets,
modelled from the spec's wire format table: class bits 0, format bit 0x20
for the constructed types, id per X.680). -/
def univTag (constructed : Bool) (id : Nat) : Tag :=
  ⟨tagClassUniversal, if constructed then tagFormatConstructed else tagFormatSimple, id⟩

/-- The tag chain of a spec (its pyasn1 `tagSet.superTags`). -/
def specChain : Asn1Spec → List Tag
  | .integerSp => [univTag false 0x02]
  | .booleanSp => [univTag false 0x01]
  | .bitsSp => [univTag false 0x03]
  | .octetsSp => [univTag false 0x04]
  | .nullSp => [univTag false 0x05]
  | .oidSp => [univTag false 0x06]
  | .realSp => [univTag false 0x09]
  | .sequenceSp _ => [univTag true 0x10]
  | .setSp _ => [univTag true 0x11]
  | .sequenceOfSp _ => [univTag true 0x10]

/-- The full tag set of a spec (base tag = its universal tag). -/
def specTagSet (s : Asn1Spec) : TagSet := ⟨(specChain s).head?, specChain s⟩

/-- `_createComponent`: without a spec the prototype is cloned with the
decoded tag set; with a spec the clone keeps the spec's own tag set. -/
def componentTagSet (spec : Option Asn1Spec) (ts : TagSet) : TagSet :=
  match spec with
  | none => ts
  | some s => specTagSet s

/-- `tagSet[0]`: the innermost tag of the chain.  An empty chain would be
a Python `IndexError`. -/
def tagSetHead (ts : TagSet) : Except DecErr Tag :=
  match ts.superTags with
  | [] => .error .typeError
  | t :: _ => .ok t

/-- Modelled from the spec: `from_bytes(chunk, signed=True)` interprets
the octets as a two's-complement big-endian signed integer
(`pyasn1/compat/integer.py` is not under `src/`). -/
def intFromBytesSigned (bs : List Nat) : Int :=
  let u : Nat := bs.foldl (fun a b => a * 256 + b) 0
  if 128 ≤ bs.headD 0 then (u : Int) - (256 : Int) ^ bs.length else (u : Int)

/-- `IntegerPayloadDecoder.valueDecoder`: simple tag format required;
read `length` octets; empty content is the value 0. -/
def integerValueDecoder (spec : Option Asn1Spec) (ts : TagSet) (len : Int)
    (bs : List Nat) : Except DecErr (DecOut × List Nat) :=
  match tagSetHead ts with
  | .error e => .error e
  | .ok t0 =>
      if t0.tagFormat ≠ tagFormatSimple then .error .malformed
      else
        match readExact len bs with
        | .error e => .error e
        | .ok (chunk, rest) =>
            let value := if chunk ≠ [] then intFromBytesSigned chunk else 0
            .ok (.val (some (.intV (componentTagSet spec ts) value)), rest)

/-- `BooleanPayloadDecoder`: reads as Integer, then normalizes the value
to 0/1 (`value and 1 or 0`). -/
def booleanValueDecoder (spec : Option Asn1Spec) (ts : TagSet) (len : Int)
    (bs : List Nat) : Except DecErr (DecOut × List Nat) :=
  match tagSetHead ts with
  | .error e => .error e
  | .ok t0 =>
      if t0.tagFormat ≠ tagFormatSimple then .error .malformed
      else
        match readExact len bs with
        | .error e => .error e
        | .ok (chunk, rest) =>
            let value := if chunk ≠ [] then intFromBytesSigned chunk else 0
            .ok (.val (some (.boolV (componentTagSet spec ts) (value ≠ 0))), rest)

/-- `NullPayloadDecoder.valueDecoder`: simple tag format required; read
`length` octets; any non-empty content raises
`Unexpected %d-octet substrate for Null`. -/
def nullValueDecoder (spec : Option Asn1Spec) (ts : TagSet) (len : Int)
    (bs : List Nat) : Except DecErr (DecOut × List Nat) :=
  match tagSetHead ts with
  | .error e => .error e
  | .ok t0 =>
      if t0.tagFormat ≠ tagFormatSimple then .error .malformed
      else
        match readExact len bs with
        | .error e => .error e
        | .ok (chunk, rest) =>
            if chunk ≠ [] then .error .malformed
            else .ok (.val (some (.nullV (componentTagSet spec ts))), rest)

/-- The sub-identifier scan of `ObjectIdentifierPayloadDecoder`
(`while index < substrateLen`): octets below 128 are complete
sub-identifiers; an octet above 128 starts a multi-octet sub-identifier
whose inner loop (`while nextSubId >= 128`) accumulates low 7 bits — here
expressed as the scan state `some acc`; the octet `0x80` at the start of
a sub-identifier (a non-canonical leading zero) raises
`Invalid octet 0x80 in OID encoding`; content ending inside a multi-octet
sub-identifier raises `Short substrate for sub-OID`. -/
def subIdScan : Option Nat → List Nat → Except DecErr (List Nat)
  | none, [] => .ok []
  | some _, [] => .error .underrun
  | none, b :: rest =>
      if b < 128 then
        match subIdScan none rest with
        | .error e => .error e
        | .ok tl => .ok (b :: tl)
      else if b > 128 then subIdScan (some (b &&& 0x7F)) rest
      else .error .malformed
  | some acc, b :: rest =>
      if 128 ≤ b then subIdScan (some ((acc <<< 7) + (b &&& 0x7F))) rest
      else
        match subIdScan none rest with
        | .error e => .error e
        | .ok tl => .ok (((acc <<< 7) + b) :: tl)

/-- The complete sub-identifier scan of an OID content chunk. -/
def parseSubIds (bs : List Nat) : Except DecErr (List Nat) :=
  subIdScan none bs

/-- The two leading arcs split of `ObjectIdentifierPayloadDecoder`:
`s0 ≤ 39 → (0,) + oid`, `40 ≤ s0 ≤ 79 → (1, s0 - 40) + oid[1:]`,
`s0 ≥ 80 → (2, s0 - 80) + oid[1:]`. -/
def splitLeadingArcs (oid : List Nat) : Except DecErr (List Nat) :=
  match oid with
  | [] => .error .typeError
  | s0 :: tl =>
      if s0 ≤ 39 then .ok (0 :: s0 :: tl)
      else if s0 ≤ 79 then .ok (1 :: (s0 - 40) :: tl)
      else .ok (2 :: (s0 - 80) :: tl)

/-- `ObjectIdentifierPayloadDecoder.valueDecoder`: simple tag format
required; read `length` octets (empty content raises `Empty substrate`);
scan base-128 sub-identifiers; split the two leading arcs. -/
def oidValueDecoder (spec : Option Asn1Spec) (ts : TagSet) (len : Int)
    (bs : List Nat) : Except DecErr (DecOut × List Nat) :=
  match tagSetHead ts with
  | .error e => .error e
  | .ok t0 =>
      if t0.tagFormat ≠ tagFormatSimple then .error .malformed
      else
        match readExact len bs with
        | .error e => .error e
        | .ok (chunk, rest) =>
            if chunk = [] then .error .malformed
            else
              match parseSubIds chunk with
              | .error e => .error e
              | .ok oid =>
                  match splitLeadingArcs oid with
                  | .error e => .error e
                  | .ok arcs =>
                      .ok (.val (some (.oidV (componentTagSet spec ts) arcs)), rest)

/-- Modelled from the spec: Python `int(chunk)` on the NR1 decimal string
— optional surrounding spaces, an optional sign, then one or more digits
(the host-language parser is external to this repository). -/
def pyParseInt (bs : List Nat) : Option Int :=
  let bs := bs.dropWhile (· = 0x20)
  let bs := (bs.reverse.dropWhile (· = 0x20)).reverse
  let (sign, digits) :=
    match bs with
    | 0x2B :: tl => ((1 : Int), tl)
    | 0x2D :: tl => ((-1 : Int), tl)
    | _ => ((1 : Int), bs)
  if digits = [] ∨ ¬ digits.all (fun d => 0x30 ≤ d ∧ d ≤ 0x39) then none
  else some (sign * (digits.foldl (fun a d => a * 10 + ((d : Int) - 0x30)) 0))

/-- Modelled from the spec: Python `float(chunk)` on an NR2/NR3 decimal
string — sign, digits with an optional fractional part, an optional
exponent; the value is returned as a mantissa and a power of ten. -/
def pyParseFloat (bs : List Nat) : Option (Int × Int) :=
  let bs := bs.dropWhile (· = 0x20)
  let bs := (bs.reverse.dropWhile (· = 0x20)).reverse
  let (sign, bs1) :=
    match bs with
    | 0x2B :: tl => ((1 : Int), tl)
    | 0x2D :: tl => ((-1 : Int), tl)
    | _ => ((1 : Int), bs)
  let isDigit : Nat → Bool := fun d => 0x30 ≤ d ∧ d ≤ 0x39
  let intPart := bs1.takeWhile isDigit
  let bs2 := bs1.dropWhile isDigit
  let (fracPart, bs3) :=
    match bs2 with
    | 0x2E :: tl => (tl.takeWhile isDigit, tl.dropWhile isDigit)
    | _ => ([], bs2)
  let expPart : Option Int :=
    match bs3 with
    | [] => some 0
    | e :: tl =>
        if e = 0x45 ∨ e = 0x65 then pyParseInt tl else none
  match expPart with
  | none => none
  | some ex =>
      if intPart = [] ∧ fracPart = [] then none
      else
        let mant := (intPart ++ fracPart).foldl
          (fun a d => a * 10 + ((d : Int) - 0x30)) 0
        some (sign * mant, ex - fracPart.length)

/-- `RealPayloadDecoder.valueDecoder`.  Empty content yields `0.0`.  The
first content octet selects binary (`fo &&& 0x80`), special
(`fo &&& 0x40`) or character encoding; the binary branch reads the
exponent length `n = (fo &&& 3) + 1` (with `n = 4` meaning the next octet
holds the length), requires both exponent and mantissa octets, folds both
big-endian (the exponent as a signed two's-complement value), rejects
base bits 3, scales the exponent for bases 8/16 and the mantissa by
`2 ^ scale`. -/
def realValueDecoder (spec : Option Asn1Spec) (ts : TagSet) (len : Int)
    (bs : List Nat) : Except DecErr (DecOut × List Nat) :=
  match tagSetHead ts with
  | .error e => .error e
  | .ok t0 =>
      if t0.tagFormat ≠ tagFormatSimple then .error .malformed
      else
        match readExact len bs with
        | .error e => .error e
        | .ok (chunk, rest) =>
            let mkOut : RealValue → Except DecErr (DecOut × List Nat) :=
              fun r => .ok (.val (some (.realV (componentTagSet spec ts) r)), rest)
            match chunk with
            | [] => mkOut .zero
            | fo :: chunk1 =>
                if fo &&& 0x80 ≠ 0 then
                  -- binary encoding
                  if chunk1 = [] then .error .malformed
                  else
                    let n := (fo &&& 0x03) + 1
                    let (n, chunk2) :=
                      if n = 4 then (chunk1.headD 0, chunk1.tail) else (n, chunk1)
                    let eo := chunk2.take n
                    let chunk3 := chunk2.drop n
                    if eo = [] ∨ chunk3 = [] then .error .malformed
                    else
                      let e0 : Int := if eo.headD 0 &&& 0x80 ≠ 0 then -1 else 0
                      let e := eo.foldl (fun a b => a * 256 + (b : Int)) e0
                      let b := (fo >>> 4) &&& 0x03
                      if b > 2 then .error .malformed
                      else
                        let e := if b = 1 then e * 3 else if b = 2 then e * 4 else e
                        let p : Int := chunk3.foldl (fun a c => a * 256 + (c : Int)) 0
                        let p := if fo &&& 0x40 ≠ 0 then -p else p
                        let sf := (fo >>> 2) &&& 0x03
                        let p := p * 2 ^ sf
                        mkOut (.binary p e)
                else if fo &&& 0x40 ≠ 0 then
                  -- special (infinite) value
                  mkOut (if fo &&& 0x01 ≠ 0 then .neginf else .inf)
                else if fo &&& 0xC0 = 0 then
                  -- character encoding
                  if chunk1 = [] then .error .malformed
                  else if fo &&& 0x3 = 0x1 then
                    match pyParseInt chunk1 with
                    | none => .error .underrun
                    | some i => mkOut (.nr1 i)
                  else if fo &&& 0x3 = 0x2 ∨ fo &&& 0x3 = 0x3 then
                    match pyParseFloat chunk1 with
                    | none => .error .underrun
                    | some (m, ex) => mkOut (.decimal m ex)
                  else .error .underrun
                else .error .underrun

/-- The payload decoder classes reachable in this embedding (the
character-string and useful types reuse the OctetString mechanics, as in
the source where their decoder classes subclass
`OctetStringPayloadDecoder` unchanged). -/
inductive PayloadKind where
  | integerK
  | booleanK
  | bitsK
  | octetsK
  | nullK
  | oidK
  | realK
  | seqLikeK (isSet : Bool)
  | rawK
deriving DecidableEq, Repr

/-- The `TAG_MAP` entry for a universal tag (primitive and constructed
forms share the entry, see `tagKey`).  Ids 7 (ObjectDescriptor),
12/18–22/25–28/30 (character strings) and 23/24 (UTCTime/GeneralizedTime)
all map to OctetString mechanics; 10 (Enumerated) maps to the Integer
decoder. -/
def kindOfUniversalId (id : Nat) : Option PayloadKind :=
  match id with
  | 0x01 => some .booleanK
  | 0x02 => some .integerK
  | 0x03 => some .bitsK
  | 0x04 => some .octetsK
  | 0x05 => some .nullK
  | 0x06 => some .oidK
  | 0x07 => some .octetsK
  | 0x09 => some .realK
  | 0x0A => some .integerK
  | 0x0C => some .octetsK
  | 0x10 => some (.seqLikeK false)
  | 0x11 => some (.seqLikeK true)
  | 0x12 => some .octetsK
  | 0x13 => some .octetsK
  | 0x14 => some .octetsK
  | 0x15 => some .octetsK
  | 0x16 => some .octetsK
  | 0x17 => some .octetsK
  | 0x18 => some .octetsK
  | 0x19 => some .octetsK
  | 0x1A => some .octetsK
  | 0x1B => some .octetsK
  | 0x1C => some .octetsK
  | 0x1E => some .octetsK
  | _ => none

/-- `stGetValueDecoderByTag`: look up `tagMap[tagSet]`, falling back to
`tagMap[tagSet[:1]]`.  `TAG_MAP` keys are single universal tags, so the
full-chain lookup succeeds exactly when the chain is that singleton; the
fallback consults only the first (innermost) tag — the two steps collapse
to a lookup on the first tag. -/
def lookupKindByTag (chain : List Tag) : Option PayloadKind :=
  match chain with
  | [] => none
  | t :: _ =>
      if t.tagClass = tagClassUniversal then kindOfUniversalId t.tagId
      else none

/-- `TYPE_MAP` dispatch by `typeId` of the chosen spec (every spec
constructor of this embedding has an entry). -/
def kindOfSpec : Asn1Spec → PayloadKind
  | .integerSp => .integerK
  | .booleanSp => .booleanK
  | .bitsSp => .bitsK
  | .octetsSp => .octetsK
  | .nullSp => .nullK
  | .oidSp => .oidK
  | .realSp => .realK
  | .sequenceSp _ => .seqLikeK false
  | .setSp _ => .seqLikeK true
  | .sequenceOfSp _ => .seqLikeK false

/-- `stGetValueDecoderByAsn1Spec`: when the spec is a `TagMap`, select
the branch keyed by the decoded tag set; otherwise the spec itself must
match on tag set (membership in the spec's own one-entry tag map adds
nothing for the universal types of this embedding). -/
def chooseSpec (sa : SpecArg) (ts : TagSet) : Option Asn1Spec :=
  match sa with
  | .map m =>
      match m.find? (fun p => p.1 = chainKey ts.superTags) with
      | some p => some p.2
      | none => none
  | .one s =>
      if chainKey (specChain s) = chainKey ts.superTags then some s else none

/-- Modelled from the spec: `namedTypes.tagMapUnique` of a Set catalogue
— the order-independent map from each slot's tag set to its template
(`pyasn1/type/namedtype.py` is not under `src/`). -/
def tagMapUnique (nts : List NamedType) : List (List (Nat × Nat) × Asn1Spec) :=
  nts.map (fun nt => (chainKey (specChain nt.1), nt.1))

/-- Modelled from the spec: `namedTypes.getTagMapNearPosition(idx)` — the
tag-set → template map restricted to slots from `idx` onward. -/
def tagMapNearPosition (nts : List NamedType) (idx : Nat) :
    List (List (Nat × Nat) × Asn1Spec) :=
  (nts.drop idx).map (fun nt => (chainKey (specChain nt.1), nt.1))

/-- Modelled from the spec: `namedTypes.getPositionByType(tagSet)` — the
slot whose template matches the child's effective tag set (Set records,
order-independent). -/
def getPositionByType (nts : List NamedType) (key : List (Nat × Nat)) :
    Option Nat :=
  nts.findIdx? (fun nt => chainKey (specChain nt.1) = key)

/-- Modelled from the spec: `namedTypes.getPositionNearType(tagSet, idx)`
— the first slot at or after `idx` whose template matches the child. -/
def getPositionNearType (nts : List NamedType) (key : List (Nat × Nat))
    (idx : Nat) : Option Nat :=
  match ((nts.drop idx).findIdx? (fun nt => chainKey (specChain nt.1) = key)) with
  | some i => some (idx + i)
  | none => none

/-- Modelled from the spec: `namedTypes.requiredComponents` — the indices
of the slots that are neither optional nor defaulted. -/
def requiredIndices (nts : List NamedType) : List Nat :=
  (List.range nts.length).filter (fun i =>
    match nts.get? i with
    | some nt => ¬ nt.2.1 ∧ ¬ nt.2.2
    | none => false)

/-- `namedTypes.hasOptionalOrDefault` -/
def hasOptionalOrDefault (nts : List NamedType) : Bool :=
  nts.any (fun nt => nt.2.1 ∨ nt.2.2)

/-- Python set insertion (`seenIndices.add(idx)` /
`componentTypes.add(...)`): add the element unless already present. -/
def setInsert {α : Type} [DecidableEq α] (x : α) (s : List α) : List α :=
  if x ∈ s then s else s ++ [x]

/-- The base tag of `protoRecordComponent`/`protoSequenceComponent`
(`univ.Sequence`/`univ.Set` and their -Of variants share it). -/
def protoBaseTag (isSet : Bool) : Tag :=
  univTag true (if isSet then 0x11 else 0x10)

/-- Component-type selection in the definite-length schema-guided record
loop (`ConstructedPayloadDecoderBase.valueDecoder`): no catalogue →
schemaless child; Set → the unique tag map; Sequence → the slot template,
or the near-position tag map for optional/defaulted slots; a slot index
past the catalogue raises `Excessive components decoded`. -/
def componentTypeForDef (nts : List NamedType) (isSet isDet : Bool)
    (idx : Nat) : Except DecErr (Option SpecArg) :=
  if nts.isEmpty then .ok none
  else if isSet then .ok (some (.map (tagMapUnique nts)))
  else
    match nts.get? idx with
    | none => .error .excessComponents
    | some nt =>
        if isDet then .ok (some (.one nt.1))
        else if nt.2.1 ∨ nt.2.2 then .ok (some (.map (tagMapNearPosition nts idx)))
        else .ok (some (.one nt.1))

/-- Component-type selection in the indefinite-length record loop
(`indefLenValueDecoder`): an index past the catalogue selects a
schemaless child instead of raising. -/
def componentTypeForIndef (nts : List NamedType) (isSet isDet : Bool)
    (idx : Nat) : Option SpecArg :=
  if nts.length ≤ idx then none
  else if isSet then some (.map (tagMapUnique nts))
  else
    match nts.get? idx with
    | none => none
    | some nt =>
        if isDet then some (.one nt.1)
        else if nt.2.1 ∨ nt.2.2 then some (.map (tagMapNearPosition nts idx))
        else some (.one nt.1)

/-- The slot-index update after decoding one record component
(`if not isDeterministic and namedTypes:`): Set records locate the slot
by the child's effective tag set; Sequence records with an
optional/defaulted slot at `idx` use the near-position lookup.  A `None`
child here crashes on the `effectiveTagSet` attribute access. -/
def updateIdx (nts : List NamedType) (isSet isDet : Bool) (idx : Nat)
    (comp : Option Asn1Value) : Except DecErr Nat :=
  if !isDet && !nts.isEmpty then
    if isSet then
      match comp with
      | none => .error .typeError
      | some c =>
          match getPositionByType nts (chainKey c.effectiveTagSet.superTags) with
          | some i => .ok i
          | none => .error .malformed
    else
      match nts.get? idx with
      | none => .error .typeError
      | some nt =>
          if nt.2.1 ∨ nt.2.2 then
            match comp with
            | none => .error .typeError
            | some c =>
                match getPositionNearType nts (chainKey c.effectiveTagSet.superTags) idx with
                | some i => .ok i
                | none => .error .malformed
          else .ok idx
  else .ok idx

/-- One octet as eight bits, most significant first. -/
def byteBits (b : Nat) : List Bool :=
  (List.range 8).map (fun i => b.testBit (7 - i))

/-- Modelled from the spec: `BitString.fromOctetString(_, padding=pad)` —
the payload bits of a bit-string fragment are the octet bits with the
final `pad` bits dropped (`pyasn1/type/univ.py` is not under `src/`). -/
def bitsFromOctets (pad : Nat) (payload : List Nat) : List Bool :=
  let bits := (payload.map byteBits).flatten
  bits.take (bits.length - pad)

/-- The final step of `_decodeComponentsSchemaless`: fill the collected
components into the guessed container (when no component was decoded the
object remains `None`). -/
def schemalessFinish (lastObj : Option Asn1Value)
    (components : List Asn1Value) (rest : List Nat) :
    Except DecErr (Option Asn1Value × List Nat) :=
  match lastObj with
  | none => .ok (none, rest)
  | some (.containerV cts cIsSet cRec _) =>
      .ok (some (.containerV cts cIsSet cRec components), rest)
  | some _ => .error .typeError

/-- The post-loop step of the schema-guided record paths: verify every
required slot was assigned
(`namedTypes.requiredComponents.issubset(seenIndices)`), then yield the
record. -/
def recordFinish (s : Asn1Spec) (isSet : Bool) (nts : List NamedType)
    (r : Except DecErr (List (Nat × Option Asn1Value) × List Nat × List Nat)) :
    Except DecErr (DecOut × List Nat) :=
  match r with
  | .error e => .error e
  | .ok (asgn, seen, rest) =>
      if ¬ nts.isEmpty ∧ ¬ (requiredIndices nts).all (fun i => seen.contains i) then
        .error .missingRequired
      else .ok (.val (some (.recordV (specTagSet s) isSet asgn)), rest)

mutual

/-- `SingleItemDecoder.__call__`: when end-of-contents is allowed, read
two octets and yield the end-of-octets marker if they are the sentinel
(otherwise seek back); then run the tag/length/value state machine.
`collector` records whether `substrateFun` is the `substrateCollector`
hook of the string decoders. -/
def singleItemDecode (fuel : Nat) (bs : List Nat) (spec : Option SpecArg)
    (tagSetIn : Option TagSet) (allowEoo : Bool) (collector : Bool) :
    Except DecErr (DecOut × List Nat) :=
  match fuel with
  | 0 => .error .fuel
  | fuel + 1 =>
      if allowEoo && supportIndefLength then
        if bs.length < 2 then .error .underrun
        else if bs.take 2 = [0, 0] then .ok (.eoo, bs.drop 2)
        else headerThenBody fuel bs spec tagSetIn collector
      else headerThenBody fuel bs spec tagSetIn collector

termination_by structural fuel

/-- States `stDecodeTag`/`stDecodeLength` followed by the rest of the
state machine. -/
def headerThenBody (fuel : Nat) (bs : List Nat) (spec : Option SpecArg)
    (tagSetIn : Option TagSet) (collector : Bool) :
    Except DecErr (DecOut × List Nat) :=
  match fuel with
  | 0 => .error .fuel
  | fuel + 1 =>
      match decodeHeader tagSetIn bs with
      | .error e => .error e
      | .ok (ts, len, rest) => decodeBody fuel spec ts len rest collector

termination_by structural fuel

/-- States `stGetValueDecoder`, `stGetValueDecoderByTag`,
`stGetValueDecoderByAsn1Spec`: select the payload decoder by tag (no
spec) or by matching the spec and dispatching on its type id; a miss goes
to `stTryAsExplicitTag`. -/
def decodeBody (fuel : Nat) (spec : Option SpecArg) (ts : TagSet)
    (len : Int) (bs : List Nat) (collector : Bool) :
    Except DecErr (DecOut × List Nat) :=
  match fuel with
  | 0 => .error .fuel
  | fuel + 1 =>
      match spec with
      | none =>
          match lookupKindByTag ts.superTags with
          | some kind => decodeValueSt fuel kind none none ts len bs collector
          | none => tryAsExplicitTag fuel none ts len bs collector
      | some sa =>
          match chooseSpec sa ts with
          | some s =>
              decodeValueSt fuel (kindOfSpec s) (some s) (some sa) ts len bs collector
          | none => tryAsExplicitTag fuel (some sa) ts len bs collector

termination_by structural fuel

/-- `stTryAsExplicitTag`: a constructed non-universal outermost tag is
assumed to be an explicit tag and handed to the raw payload decoder;
anything else reaches `stErrorCondition`. -/
def tryAsExplicitTag (fuel : Nat) (spec : Option SpecArg) (ts : TagSet)
    (len : Int) (bs : List Nat) (collector : Bool) :
    Except DecErr (DecOut × List Nat) :=
  match fuel with
  | 0 => .error .fuel
  | fuel + 1 =>
      match ts.superTags with
      | t :: _ =>
          if t.tagFormat = tagFormatConstructed ∧ t.tagClass ≠ tagClassUniversal then
            decodeValueSt fuel .rawK none spec ts len bs collector
          else .error .unknownTag
      | [] => .error .unknownTag

termination_by structural fuel

/-- `stDecodeValue`: dispatch to `valueDecoder` or `indefLenValueDecoder`
and, for definite lengths, check that the payload decoder consumed
exactly `length` octets
(`raise PyAsn1Error("Read %s bytes instead of expected %s.")`). -/
def decodeValueSt (fuel : Nat) (kind : PayloadKind)
    (chosen : Option Asn1Spec) (origSpec : Option SpecArg) (ts : TagSet)
    (len : Int) (bs : List Nat) (collector : Bool) :
    Except DecErr (DecOut × List Nat) :=
  match fuel with
  | 0 => .error .fuel
  | fuel + 1 =>
      if len = -1 then payloadIndef fuel kind chosen origSpec ts bs collector
      else
        match payloadDef fuel kind chosen origSpec ts len bs collector with
        | .error e => .error e
        | .ok (out, rest) =>
            if ((bs.length : Int) - (rest.length : Int)) ≠ len then
              .error .lengthMismatch
            else .ok (out, rest)

termination_by structural fuel

/-- Definite-length dispatch to the chosen payload decoder class. -/
def payloadDef (fuel : Nat) (kind : PayloadKind) (chosen : Option Asn1Spec)
    (origSpec : Option SpecArg) (ts : TagSet) (len : Int) (bs : List Nat)
    (collector : Bool) : Except DecErr (DecOut × List Nat) :=
  match fuel with
  | 0 => .error .fuel
  | fuel + 1 =>
      match kind with
      | .integerK => integerValueDecoder chosen ts len bs
      | .booleanK => booleanValueDecoder chosen ts len bs
      | .nullK => nullValueDecoder chosen ts len bs
      | .oidK => oidValueDecoder chosen ts len bs
      | .realK => realValueDecoder chosen ts len bs
      | .octetsK => octetsDef fuel chosen ts len bs collector
      | .bitsK => bitsDef fuel chosen ts len bs collector
      | .seqLikeK isSet => constructedDef fuel isSet chosen ts len bs collector
      | .rawK => rawDef fuel origSpec ts len bs collector

termination_by structural fuel

/-- Indefinite-length dispatch.  The primitive-only decoders inherit
`AbstractPayloadDecoder.indefLenValueDecoder`, which raises. -/
def payloadIndef (fuel : Nat) (kind : PayloadKind)
    (chosen : Option Asn1Spec) (origSpec : Option SpecArg) (ts : TagSet)
    (bs : List Nat) (collector : Bool) :
    Except DecErr (DecOut × List Nat) :=
  match fuel with
  | 0 => .error .fuel
  | fuel + 1 =>
      match kind with
      | .integerK => .error .malformed
      | .booleanK => .error .malformed
      | .nullK => .error .malformed
      | .oidK => .error .malformed
      | .realK => .error .malformed
      | .octetsK =>
          -- `substrateFun is not self.substrateCollector` is never true
          -- here, so the fragment loop always runs.
          octetsIndefLoop fuel ts chosen [] bs
      | .bitsK =>
          if collector then .ok (.raw bs, [])
          else bitsIndefLoop fuel ts chosen [] bs
      | .seqLikeK isSet => constructedIndef fuel isSet chosen ts bs collector
      | .rawK =>
          if collector then .ok (.raw bs, [])
          else rawIndefLoop fuel bs origSpec ts .noVal

termination_by structural fuel

/-- `RawPayloadDecoder.valueDecoder`: with a collector hook, stream the
raw content; otherwise recursively decode one inner value with the
current tag chain (the explicit-tag assumption). -/
def rawDef (fuel : Nat) (origSpec : Option SpecArg) (ts : TagSet)
    (len : Int) (bs : List Nat) (collector : Bool) :
    Except DecErr (DecOut × List Nat) :=
  match fuel with
  | 0 => .error .fuel
  | fuel + 1 =>
      if collector then
        match readExact len bs with
        | .error e => .error e
        | .ok (chunk, rest) => .ok (.raw chunk, rest)
      else singleItemDecode fuel bs origSpec (some ts) false false

termination_by structural fuel

/-- `RawPayloadDecoder.indefLenValueDecoder` fragment loop: decode inner
values (end-of-contents allowed) until the sentinel; the caller keeps the
last decoded value (`noValue` when there was none). -/
def rawIndefLoop (fuel : Nat) (bs : List Nat) (origSpec : Option SpecArg)
    (ts : TagSet) (last : DecOut) : Except DecErr (DecOut × List Nat) :=
  match fuel with
  | 0 => .error .fuel
  | fuel + 1 =>
      match singleItemDecode fuel bs origSpec (some ts) true false with
      | .error e => .error e
      | .ok (.eoo, rest) => .ok (last, rest)
      | .ok (out, rest) => rawIndefLoop fuel rest origSpec ts out

termination_by structural fuel

/-- `OctetStringPayloadDecoder.valueDecoder`: collector hook → raw
content; simple tag format → literal `length` octets; constructed form →
concatenate the fragments decoded with the collector hook. -/
def octetsDef (fuel : Nat) (chosen : Option Asn1Spec) (ts : TagSet)
    (len : Int) (bs : List Nat) (collector : Bool) :
    Except DecErr (DecOut × List Nat) :=
  match fuel with
  | 0 => .error .fuel
  | fuel + 1 =>
      if collector then
        match readExact len bs with
        | .error e => .error e
        | .ok (chunk, rest) => .ok (.raw chunk, rest)
      else
        match tagSetHead ts with
        | .error e => .error e
        | .ok t0 =>
            if t0.tagFormat = tagFormatSimple then
              match readExact len bs with
              | .error e => .error e
              | .ok (chunk, rest) =>
                  .ok (.val (some (.octetsV (componentTagSet chosen ts) chunk)), rest)
            else
              match octetsFragsDef fuel bs.length len [] bs with
              | .error e => .error e
              | .ok (header, rest) =>
                  .ok (.val (some (.octetsV (componentTagSet chosen ts) header)), rest)

termination_by structural fuel

/-- The definite-length fragment loop of the constructed OctetString
form: decode inner TLVs against the OctetString prototype with the
collector hook until `length` octets are consumed. -/
def octetsFragsDef (fuel : Nat) (origPos : Nat) (len : Int)
    (acc : List Nat) (bs : List Nat) :
    Except DecErr (List Nat × List Nat) :=
  match fuel with
  | 0 => .error .fuel
  | fuel + 1 =>
      if (origPos : Int) - (bs.length : Int) < len then
        match singleItemDecode fuel bs (some (.one .octetsSp)) none false true with
        | .error e => .error e
        | .ok (.raw chunk, rest) => octetsFragsDef fuel origPos len (acc ++ chunk) rest
        | .ok _ => .error .typeError
      else .ok (acc, bs)

termination_by structural fuel

/-- `OctetStringPayloadDecoder.indefLenValueDecoder` fragment loop:
decode fragments (end-of-contents allowed) with the collector hook until
the sentinel. -/
def octetsIndefLoop (fuel : Nat) (ts : TagSet) (chosen : Option Asn1Spec)
    (acc : List Nat) (bs : List Nat) :
    Except DecErr (DecOut × List Nat) :=
  match fuel with
  | 0 => .error .fuel
  | fuel + 1 =>
      match singleItemDecode fuel bs (some (.one .octetsSp)) none true true with
      | .error e => .error e
      | .ok (.eoo, rest) =>
          .ok (.val (some (.octetsV (componentTagSet chosen ts) acc)), rest)
      | .ok (.raw chunk, rest) => octetsIndefLoop fuel ts chosen (acc ++ chunk) rest
      | .ok _ => .error .typeError

termination_by structural fuel

/-- `BitStringPayloadDecoder.valueDecoder`: collector hook → raw content;
empty length or an exhausted substrate raise
`Empty BIT STRING substrate`; simple form → one trailing-bits octet
(≤ 7) and `length - 1` payload octets; constructed form → per-fragment
assembly. -/
def bitsDef (fuel : Nat) (chosen : Option Asn1Spec) (ts : TagSet)
    (len : Int) (bs : List Nat) (collector : Bool) :
    Except DecErr (DecOut × List Nat) :=
  match fuel with
  | 0 => .error .fuel
  | fuel + 1 =>
      if collector then
        match readExact len bs with
        | .error e => .error e
        | .ok (chunk, rest) => .ok (.raw chunk, rest)
      else if len = 0 then .error .malformed
      else if bs.isEmpty then .error .malformed
      else
        match tagSetHead ts with
        | .error e => .error e
        | .ok t0 =>
            if t0.tagFormat = tagFormatSimple then
              match readExact 1 bs with
              | .error e => .error e
              | .ok (tb, rest1) =>
                  let trailingBits := tb.headD 0
                  if trailingBits > 7 then .error .malformed
                  else
                    match readExact (len - 1) rest1 with
                    | .error e => .error e
                    | .ok (chunk, rest2) =>
                        .ok (.val (some (.bitsV (componentTagSet chosen ts)
                          (bitsFromOctets trailingBits chunk))), rest2)
            else
              match bitsFragsDef fuel bs.length len [] bs with
              | .error e => .error e
              | .ok (bits, rest) =>
                  .ok (.val (some (.bitsV (componentTagSet chosen ts) bits)), rest)

termination_by structural fuel

/-- The definite-length fragment loop of the constructed BitString form:
each fragment is read raw via the collector hook, its first octet is the
trailing-bits count (≤ 7), the remaining octets contribute the bits. -/
def bitsFragsDef (fuel : Nat) (origPos : Nat) (len : Int)
    (acc : List Bool) (bs : List Nat) :
    Except DecErr (List Bool × List Nat) :=
  match fuel with
  | 0 => .error .fuel
  | fuel + 1 =>
      if (origPos : Int) - (bs.length : Int) < len then
        match singleItemDecode fuel bs (some (.one .bitsSp)) none false true with
        | .error e => .error e
        | .ok (.raw chunk, rest) =>
            match chunk with
            | [] => .error .typeError
            | tb :: payload =>
                if tb > 7 then .error .malformed
                else bitsFragsDef fuel origPos len (acc ++ bitsFromOctets tb payload) rest
        | .ok _ => .error .typeError
      else .ok (acc, bs)

termination_by structural fuel

/-- `BitStringPayloadDecoder.indefLenValueDecoder` fragment loop. -/
def bitsIndefLoop (fuel : Nat) (ts : TagSet) (chosen : Option Asn1Spec)
    (acc : List Bool) (bs : List Nat) :
    Except DecErr (DecOut × List Nat) :=
  match fuel with
  | 0 => .error .fuel
  | fuel + 1 =>
      match singleItemDecode fuel bs (some (.one .bitsSp)) none true true with
      | .error e => .error e
      | .ok (.eoo, rest) =>
          .ok (.val (some (.bitsV (componentTagSet chosen ts) acc)), rest)
      | .ok (.raw chunk, rest) =>
          match chunk with
          | [] => .error .typeError
          | tb :: payload =>
              if tb > 7 then .error .malformed
              else bitsIndefLoop fuel ts chosen (acc ++ bitsFromOctets tb payload) rest
      | .ok _ => .error .typeError

termination_by structural fuel

/-- `ConstructedPayloadDecoderBase.valueDecoder`: constructed tag format
required; collector hook → raw content; no spec → schemaless assembly;
with a spec → schema-guided assembly. -/
def constructedDef (fuel : Nat) (isSet : Bool) (chosen : Option Asn1Spec)
    (ts : TagSet) (len : Int) (bs : List Nat) (collector : Bool) :
    Except DecErr (DecOut × List Nat) :=
  match fuel with
  | 0 => .error .fuel
  | fuel + 1 =>
      match tagSetHead ts with
      | .error e => .error e
      | .ok t0 =>
          if t0.tagFormat ≠ tagFormatConstructed then .error .malformed
          else if collector then
            match readExact len bs with
            | .error e => .error e
            | .ok (chunk, rest) => .ok (.raw chunk, rest)
          else
            match chosen with
            | none =>
                match schemalessLoop fuel isSet ts len bs.length [] [] none bs with
                | .error e => .error e
                | .ok (objOpt, rest) => .ok (.val objOpt, rest)
            | some s => specConstructedDef fuel isSet s len bs

termination_by structural fuel

/-- `ConstructedPayloadDecoderBase.indefLenValueDecoder`. -/
def constructedIndef (fuel : Nat) (isSet : Bool) (chosen : Option Asn1Spec)
    (ts : TagSet) (bs : List Nat) (collector : Bool) :
    Except DecErr (DecOut × List Nat) :=
  match fuel with
  | 0 => .error .fuel
  | fuel + 1 =>
      match tagSetHead ts with
      | .error e => .error e
      | .ok t0 =>
          if t0.tagFormat ≠ tagFormatConstructed then .error .malformed
          else if collector then .ok (.raw bs, [])
          else
            match chosen with
            | none =>
                match schemalessLoop fuel isSet ts (-1) bs.length [] [] none bs with
                | .error e => .error e
                | .ok (objOpt, rest) => .ok (.val objOpt, rest)
            | some s => specConstructedIndef fuel isSet s bs

termination_by structural fuel

/-- `_decodeComponentsSchemaless`: iterate children until `length` octets
are consumed (definite) or the end-of-contents sentinel (indefinite,
`length = -1`); track the set of distinct child tag sets to guess the
container shape (more than one distinct tag set → record container,
otherwise homogeneous container); the container clone carries the
prototype's base tag and the outer chain. -/
def schemalessLoop (fuel : Nat) (isSet : Bool) (outer : TagSet) (len : Int)
    (origPos : Nat) (components : List Asn1Value)
    (compTypes : List (List (Nat × Nat))) (lastObj : Option Asn1Value)
    (bs : List Nat) : Except DecErr (Option Asn1Value × List Nat) :=
  match fuel with
  | 0 => .error .fuel
  | fuel + 1 =>
      if len = -1 ∨ (origPos : Int) - (bs.length : Int) < len then
        match singleItemDecode fuel bs none none (len = -1) false with
        | .error e => .error e
        | .ok (.eoo, rest) => schemalessFinish lastObj components rest
        | .ok (.val (some c), rest) =>
            let components2 := components ++ [c]
            let compTypes2 := setInsert (chainKey c.tagSet.superTags) compTypes
            let isRecord := compTypes2.length > 1
            let obj := Asn1Value.containerV
              ⟨some (protoBaseTag isSet), outer.superTags⟩ isSet isRecord []
            schemalessLoop fuel isSet outer len origPos components2 compTypes2
              (some obj) rest
        | .ok (.val none, _) => .error .typeError
        | .ok (.noVal, _) => .error .typeError
        | .ok (.raw _, _) => .error .typeError
      else schemalessFinish lastObj components bs

termination_by structural fuel

/-- The schema-guided definite-length constructed path: Sequence/Set go
through the record loop and the required-components check
(`has uninitialized components`); SequenceOf/SetOf decode each child
against the element template.  The open-type resolution and the
`isInconsistent` check of the source operate on catalogue features this
embedding's specs do not carry. -/
def specConstructedDef (fuel : Nat) (isSet : Bool) (s : Asn1Spec)
    (len : Int) (bs : List Nat) : Except DecErr (DecOut × List Nat) :=
  match fuel with
  | 0 => .error .fuel
  | fuel + 1 =>
      match s with
      | .sequenceSp nts =>
          recordFinish s false nts
            (recordLoopDef fuel false nts (!hasOptionalOrDefault nts) bs.length
              len [] [] 0 bs)
      | .setSp nts =>
          recordFinish s true nts
            (recordLoopDef fuel true nts false bs.length len [] [] 0 bs)
      | .sequenceOfSp elem =>
          match seqOfLoopDef fuel elem bs.length len [] bs with
          | .error e => .error e
          | .ok (children, rest) =>
              .ok (.val (some (.containerV (specTagSet s) isSet false children)), rest)
      | _ => .error .typeError

termination_by structural fuel

/-- The schema-guided indefinite-length constructed path. -/
def specConstructedIndef (fuel : Nat) (isSet : Bool) (s : Asn1Spec)
    (bs : List Nat) : Except DecErr (DecOut × List Nat) :=
  match fuel with
  | 0 => .error .fuel
  | fuel + 1 =>
      match s with
      | .sequenceSp nts =>
          recordFinish s false nts
            (recordLoopIndef fuel false nts (!hasOptionalOrDefault nts) [] [] 0 bs)
      | .setSp nts =>
          recordFinish s true nts
            (recordLoopIndef fuel true nts false [] [] 0 bs)
      | .sequenceOfSp elem =>
          match seqOfLoopIndef fuel elem [] bs with
          | .error e => .error e
          | .ok (children, rest) =>
              .ok (.val (some (.containerV (specTagSet s) isSet false children)), rest)
      | _ => .error .typeError

termination_by structural fuel

/-- The definite-length record component loop
(`while substrate.tell() - original_position < length`). -/
def recordLoopDef (fuel : Nat) (isSet : Bool) (nts : List NamedType)
    (isDet : Bool) (origPos : Nat) (len : Int)
    (asgn : List (Nat × Option Asn1Value)) (seen : List Nat) (idx : Nat)
    (bs : List Nat) :
    Except DecErr (List (Nat × Option Asn1Value) × List Nat × List Nat) :=
  match fuel with
  | 0 => .error .fuel
  | fuel + 1 =>
      if (origPos : Int) - (bs.length : Int) < len then
        match componentTypeForDef nts isSet isDet idx with
        | .error e => .error e
        | .ok ct =>
            match singleItemDecode fuel bs ct none false false with
            | .error e => .error e
            | .ok (.val comp, rest) =>
                match updateIdx nts isSet isDet idx comp with
                | .error e => .error e
                | .ok idx2 =>
                    recordLoopDef fuel isSet nts isDet origPos len
                      (asgn ++ [(idx2, comp)]) (setInsert idx2 seen) (idx2 + 1) rest
            | .ok (_, _) => .error .typeError
      else .ok (asgn, seen, bs)

termination_by structural fuel

/-- The indefinite-length record component loop (`while True`, stopping
at the end-of-contents sentinel). -/
def recordLoopIndef (fuel : Nat) (isSet : Bool) (nts : List NamedType)
    (isDet : Bool) (asgn : List (Nat × Option Asn1Value)) (seen : List Nat)
    (idx : Nat) (bs : List Nat) :
    Except DecErr (List (Nat × Option Asn1Value) × List Nat × List Nat) :=
  match fuel with
  | 0 => .error .fuel
  | fuel + 1 =>
      match singleItemDecode fuel bs (componentTypeForIndef nts isSet isDet idx)
          none true false with
      | .error e => .error e
      | .ok (.eoo, rest) => .ok (asgn, seen, rest)
      | .ok (.val comp, rest) =>
          match updateIdx nts isSet isDet idx comp with
          | .error e => .error e
          | .ok idx2 =>
              recordLoopIndef fuel isSet nts isDet
                (asgn ++ [(idx2, comp)]) (setInsert idx2 seen) (idx2 + 1) rest
      | .ok (_, _) => .error .typeError

termination_by structural fuel

/-- The definite-length SequenceOf/SetOf component loop. -/
def seqOfLoopDef (fuel : Nat) (elem : Asn1Spec) (origPos : Nat) (len : Int)
    (children : List Asn1Value) (bs : List Nat) :
    Except DecErr (List Asn1Value × List Nat) :=
  match fuel with
  | 0 => .error .fuel
  | fuel + 1 =>
      if (origPos : Int) - (bs.length : Int) < len then
        match singleItemDecode fuel bs (some (.one elem)) none false false with
        | .error e => .error e
        | .ok (.val (some c), rest) => seqOfLoopDef fuel elem origPos len (children ++ [c]) rest
        | .ok (_, _) => .error .typeError
      else .ok (children, bs)

termination_by structural fuel

/-- The indefinite-length SequenceOf/SetOf component loop. -/
def seqOfLoopIndef (fuel : Nat) (elem : Asn1Spec)
    (children : List Asn1Value) (bs : List Nat) :
    Except DecErr (List Asn1Value × List Nat) :=
  match fuel with
  | 0 => .error .fuel
  | fuel + 1 =>
      match singleItemDecode fuel bs (some (.one elem)) none true false with
      | .error e => .error e
      | .ok (.eoo, rest) => .ok (children, rest)
      | .ok (.val (some c), rest) => seqOfLoopIndef fuel elem (children ++ [c]) rest
      | .ok (_, _) => .error .typeError

termination_by structural fuel
end

/-- Fuel that is ample for any one-shot input (the call chain spends a
bounded number of fuel units per consumed octet). -/
def defaultFuel (bs : List Nat) : Nat := 8 * bs.length + 64

/-- `Decoder.__call__`, the one-shot API: drive the streaming decoder for
one top-level value over a final input; an underrun marker is raised
(`Short substrate on input`) instead of being yielded; on success the
decoded object is returned together with the unprocessed trailing octets
of the substrate. -/
def decode (bs : List Nat) (spec : Option SpecArg) :
    Except DecErr (DecOut × List Nat) :=
  singleItemDecode (defaultFuel bs) bs spec none false false

/-! ### Supporting lemmas -/

theorem shiftOr_eq_add (a b : Nat) (h : b < 256) : (a <<< 8) ||| b = a * 256 + b := by
  apply Nat.eq_of_testBit_eq
  intro j
  have h256 : (256 : Nat) = 2 ^ 8 := by norm_num
  rw [Nat.testBit_lor, Nat.shiftLeft_eq, h256, Nat.mul_comm a,
    Nat.testBit_mul_pow_two_add a (h256 ▸ h), Nat.testBit_mul_pow_two]
  have hbf : 8 ≤ j → b.testBit j = false := fun hj =>
    Nat.testBit_lt_two_pow (lt_of_lt_of_le h (by
      rw [h256]; exact Nat.pow_le_pow_right (by norm_num) hj))
  rcases lt_or_le j 8 with hj | hj
  · simp [hj, Nat.not_le.mpr hj]
  · simp [Nat.not_lt.mpr hj, hj, hbf hj]

/-- The shift-or fold of `stDecodeLength` computes the big-endian
base-256 value of the octets. -/
theorem lengthFold_eq_ofDigits (l : List Nat) (h : ∀ b ∈ l, b < 256) (a : Nat) :
    l.foldl (fun x b => (x <<< 8) ||| b) a =
      a * 256 ^ l.length + Nat.ofDigits 256 l.reverse := by
  induction l generalizing a with
  | nil => simp [Nat.ofDigits]
  | cons b tl ih =>
      have hb : b < 256 := h b (by simp)
      have htl : ∀ x ∈ tl, x < 256 := fun x hx => h x (by simp [hx])
      simp only [List.foldl_cons, List.reverse_cons, ih htl,
        shiftOr_eq_add a b hb, List.length_cons]
      rw [Nat.ofDigits_append]
      simp [Nat.ofDigits]
      ring

theorem readExact_len_append (l rest : List Nat) :
    readExact (l.length : Int) (l ++ rest) = .ok (l, rest) := by
  unfold readExact
  rw [if_neg (by omega), if_pos (by simp)]
  simp

theorem readExact_zero (bs : List Nat) : readExact 0 bs = .ok ([], bs) := by
  unfold readExact
  norm_num

/-! ### C1: length field decoding -/

/-- C1: the TLV length field is decoded from the first length octet `L0`
as follows: `L0 < 128` gives content length `L0` (definite short form);
`L0 > 128` makes the decoder read `L0 &&& 0x7F` further octets and
interpret them as a big-endian unsigned integer (definite long form);
`L0 = 128` gives the indefinite length, represented internally as `-1`. -/
theorem length_field_decoding :
    (∀ (l0 : Nat) (rest : List Nat), l0 < 128 →
        decodeLength (l0 :: rest) = .ok ((l0 : Int), rest)) ∧
    (∀ rest : List Nat, decodeLength (128 :: rest) = .ok (-1, rest)) ∧
    (∀ (l0 : Nat) (rest : List Nat), 128 < l0 →
        l0 &&& 0x7F ≤ rest.length →
        (∀ b ∈ rest.take (l0 &&& 0x7F), b < 256) →
        decodeLength (l0 :: rest) =
          .ok (((Nat.ofDigits 256 (rest.take (l0 &&& 0x7F)).reverse : Nat) : Int),
            rest.drop (l0 &&& 0x7F))) := by
  refine ⟨?_, ?_, ?_⟩
  · intro l0 rest h
    simp [decodeLength, h]
  · intro rest
    simp [decodeLength]
  · intro l0 rest hgt hle hb
    simp only [decodeLength]
    rw [if_neg (by omega), if_pos (by omega)]
    have hread : readExact ((l0 &&& 0x7F : Nat) : Int) rest =
        .ok (rest.take (l0 &&& 0x7F), rest.drop (l0 &&& 0x7F)) := by
      unfold readExact
      rw [if_neg (by omega), if_pos (by exact_mod_cast hle)]
      simp
    rw [hread]
    simp [lengthFold_eq_ofDigits _ hb 0]

/-- Witness for C1 at concrete inputs. -/
theorem length_field_decoding_witness :
    decodeLength [5, 9] = .ok (5, [9]) ∧
    decodeLength [128, 7] = .ok (-1, [7]) ∧
    decodeLength [0x81, 3] = .ok (3, []) := by
  refine ⟨length_field_decoding.1 5 [9] (by decide),
    length_field_decoding.2.1 [7], ?_⟩
  have h := length_field_decoding.2.2 0x81 [3] (by decide) (by decide)
    (by decide)
  simpa [Nat.ofDigits] using h

/-! ### C4: exact consumption of definite-length content -/

/-- C4: for every definite-length TLV, when the `stDecodeValue` stage
returns a value the substrate advanced by exactly the declared content
length; and whenever the chosen payload decoder consumes a number of
octets different from the declared length, the stage raises the
length-mismatch error and yields no value.  In particular the input
`30 01 05 00` (a child extending past the declared outer length) is
rejected. -/
theorem definite_length_exact_consumption :
    (∀ fuel kind chosen origSpec ts len bs collector out rest,
        0 ≤ len →
        decodeValueSt fuel kind chosen origSpec ts len bs collector = .ok (out, rest) →
        (bs.length : Int) - (rest.length : Int) = len) ∧
    (∀ fuel kind chosen origSpec ts len bs collector out rest,
        0 ≤ len →
        payloadDef fuel kind chosen origSpec ts len bs collector = .ok (out, rest) →
        (bs.length : Int) - (rest.length : Int) ≠ len →
        decodeValueSt (fuel + 1) kind chosen origSpec ts len bs collector =
          .error .lengthMismatch) ∧
    decode [0x30, 0x01, 0x05, 0x00] none = .error .lengthMismatch := by
  refine ⟨?_, ?_, by rfl⟩
  · intro fuel kind chosen origSpec ts len bs collector out rest hlen h
    match fuel with
    | 0 => simp [decodeValueSt] at h
    | fuel + 1 =>
        simp only [decodeValueSt] at h
        rw [if_neg (by omega)] at h
        cases hp : payloadDef fuel kind chosen origSpec ts len bs collector with
        | error e => rw [hp] at h; simp at h
        | ok p =>
            rw [hp] at h
            obtain ⟨out0, rest0⟩ := p
            simp only at h
            split at h
            · simp at h
            · simp only [Except.ok.injEq, Prod.mk.injEq] at h
              obtain ⟨h1, h2⟩ := h
              subst h2
              rename_i hcond
              omega
  · intro fuel kind chosen origSpec ts len bs collector out rest hlen hp hne
    simp only [decodeValueSt]
    rw [if_neg (by omega), hp]
    simp only
    rw [if_pos hne]

/-- Witness for C4: the Null child of `30 01 05 00` consumes 2 octets
where the outer TLV declared 1. -/
theorem definite_length_exact_consumption_witness :
    decodeValueSt 13 (.seqLikeK false) none none ⟨none, [⟨0, 0x20, 0x10⟩]⟩ 1
      [0x05, 0x00] false = .error .lengthMismatch :=
  definite_length_exact_consumption.2.1 12 (.seqLikeK false) none none
    ⟨none, [⟨0, 0x20, 0x10⟩]⟩ 1 [0x05, 0x00] false
    (.val (some (.containerV ⟨some ⟨0, 0x20, 0x10⟩, [⟨0, 0x20, 0x10⟩]⟩
      false false [.nullV ⟨none, [⟨0, 0, 5⟩]⟩]))) [] (by decide) (by rfl) (by decide)

/-! ### C8: Null content length -/

/-- C8: decoding a Null TLV yields an empty Null value exactly when its
declared content length is 0; a Null TLV with non-zero content length is
rejected (`05 01 00` raises the malformed-value error). -/
theorem null_content_length :
    (∀ sp ts t0 bs, tagSetHead ts = .ok t0 → t0.tagFormat = tagFormatSimple →
        nullValueDecoder sp ts 0 bs =
          .ok (.val (some (.nullV (componentTagSet sp ts))), bs)) ∧
    (∀ sp ts t0 len bs, tagSetHead ts = .ok t0 → t0.tagFormat = tagFormatSimple →
        0 < len → len ≤ (bs.length : Int) →
        nullValueDecoder sp ts len bs = .error .malformed) ∧
    decode [0x05, 0x00] none =
      .ok (.val (some (.nullV ⟨none, [⟨0, 0, 5⟩]⟩)), []) ∧
    decode [0x05, 0x01, 0x00] none = .error .malformed := by
  refine ⟨?_, ?_, by rfl, by rfl⟩
  · intro sp ts t0 bs hts hfmt
    simp [nullValueDecoder, hts, hfmt, readExact_zero]
  · intro sp ts t0 len bs hts hfmt hpos hle
    simp only [nullValueDecoder, hts]
    rw [if_neg (by simp [hfmt])]
    have hread : readExact len bs = .ok (bs.take len.toNat, bs.drop len.toNat) := by
      unfold readExact
      rw [if_neg (by omega), if_pos hle]
    rw [hread]
    have htk : bs.take len.toNat ≠ [] := by
      have h1 : len.toNat ≠ 0 := by omega
      have h2 : bs ≠ [] := by
        intro hb
        rw [hb] at hle
        simp at hle
        omega
      simp [List.take_eq_nil_iff]
      tauto
    simp [htk]

/-- Witness for C8 at concrete inputs. -/
theorem null_content_length_witness :
    nullValueDecoder none ⟨none, [⟨0, 0, 5⟩]⟩ 0 [7] =
      .ok (.val (some (.nullV ⟨none, [⟨0, 0, 5⟩]⟩)), [7]) ∧
    nullValueDecoder none ⟨none, [⟨0, 0, 5⟩]⟩ 1 [0] = .error .malformed := by
  constructor
  · exact null_content_length.1 none ⟨none, [⟨0, 0, 5⟩]⟩ ⟨0, 0, 5⟩ [7]
      (by rfl) (by rfl)
  · exact null_content_length.2.1 none ⟨none, [⟨0, 0, 5⟩]⟩ ⟨0, 0, 5⟩ 1 [0]
      (by rfl) (by rfl) (by decide) (by decide)

/-! ### C10: Real with empty content -/

/-- C10: decoding a Real TLV with definite content length 0 succeeds and
yields the value 0.0, while structurally deficient non-empty binary
encodings (missing exponent or mantissa octets) are rejected. -/
theorem real_empty_content_is_zero :
    (∀ sp ts t0 bs, tagSetHead ts = .ok t0 → t0.tagFormat = tagFormatSimple →
        realValueDecoder sp ts 0 bs =
          .ok (.val (some (.realV (componentTagSet sp ts) .zero)), bs)) ∧
    decode [0x09, 0x00] none =
      .ok (.val (some (.realV ⟨none, [⟨0, 0, 9⟩]⟩ .zero)), []) ∧
    decode [0x09, 0x01, 0x80] none = .error .malformed ∧
    decode [0x09, 0x02, 0x80, 0x01] none = .error .malformed := by
  refine ⟨?_, by rfl, by rfl, by rfl⟩
  intro sp ts t0 bs hts hfmt
  simp [realValueDecoder, hts, hfmt, readExact_zero]

/-- Witness for C10 at a concrete input. -/
theorem real_empty_content_is_zero_witness :
    realValueDecoder none ⟨none, [⟨0, 0, 9⟩]⟩ 0 [1, 2] =
      .ok (.val (some (.realV ⟨none, [⟨0, 0, 9⟩]⟩ .zero)), [1, 2]) :=
  real_empty_content_is_zero.1 none ⟨none, [⟨0, 0, 9⟩]⟩ ⟨0, 0, 9⟩ [1, 2]
    (by rfl) (by rfl)

/-! ### C3/C7: ObjectIdentifier decoding -/

/-- Extending the content after a completely scanned prefix: if the scan
of the extension fails, so does the scan of the whole. -/
theorem subIdScan_append_error :
    ∀ (pre : List Nat) (st : Option Nat) (ids : List Nat) (more : List Nat)
      (e : DecErr),
      subIdScan st pre = .ok ids → subIdScan none more = .error e →
      subIdScan st (pre ++ more) = .error e := by
  intro pre
  induction pre with
  | nil =>
      intro st ids more e h hm
      match st with
      | none => simpa using hm
      | some acc => simp [subIdScan] at h
  | cons b tl ih =>
      intro st ids more e h hm
      match st with
      | none =>
          simp only [subIdScan, List.cons_append, List.append_eq] at h ⊢
          split at h
          · cases htl : subIdScan none tl with
            | error e2 => rw [htl] at h; simp at h
            | ok ids2 =>
                rename_i hb
                rw [if_pos hb, ih none ids2 more e htl hm]
          · split at h
            · rename_i hb1 hb2
              rw [if_neg hb1, if_pos hb2]
              exact ih _ ids more e h hm
            · simp at h
      | some acc =>
          simp only [subIdScan, List.cons_append, List.append_eq] at h ⊢
          split at h
          · rename_i hb
            rw [if_pos hb]
            exact ih _ ids more e h hm
          · cases htl : subIdScan none tl with
            | error e2 => rw [htl] at h; simp at h
            | ok ids2 =>
                rename_i hb
                rw [if_neg hb, ih none ids2 more e htl hm]

/-- C3: decoding an ObjectIdentifier whose content contains a
sub-identifier whose first octet is 0x80 fails with the malformed-value
error — both at the sub-identifier scan (for every content that starts
with a complete run of sub-identifiers followed by an `0x80` octet) and
through the payload decoder; in particular `06 02 80 01` is rejected. -/
theorem oid_leading_zero_rejected :
    (∀ pre suf ids, subIdScan none pre = .ok ids →
        parseSubIds (pre ++ 0x80 :: suf) = .error .malformed) ∧
    (∀ sp ts t0 pre suf ids rest,
        tagSetHead ts = .ok t0 → t0.tagFormat = tagFormatSimple →
        subIdScan none pre = .ok ids →
        oidValueDecoder sp ts (((pre ++ 0x80 :: suf).length : Nat) : Int)
          ((pre ++ 0x80 :: suf) ++ rest) = .error .malformed) ∧
    decode [0x06, 0x02, 0x80, 0x01] none = .error .malformed := by
  have hstep : ∀ suf : List Nat, subIdScan none (0x80 :: suf) = .error .malformed := by
    intro suf
    simp [subIdScan]
  have hmain : ∀ pre suf ids, subIdScan none pre = .ok ids →
      parseSubIds (pre ++ 0x80 :: suf) = .error .malformed := by
    intro pre suf ids h
    exact subIdScan_append_error pre none ids (0x80 :: suf) .malformed h (hstep suf)
  refine ⟨hmain, ?_, by rfl⟩
  intro sp ts t0 pre suf ids rest hts hfmt hpre
  simp only [oidValueDecoder, hts]
  rw [if_neg (by simp [hfmt]), readExact_len_append]
  have hne : pre ++ 0x80 :: suf ≠ [] := by simp
  simp only []
  rw [if_neg hne]
  rw [show parseSubIds (pre ++ 0x80 :: suf) = .error .malformed from
    hmain pre suf ids hpre]

/-- Witness for C3 at a concrete input with a non-empty prefix. -/
theorem oid_leading_zero_rejected_witness :
    parseSubIds ([0x2A] ++ 0x80 :: [0x01]) = .error .malformed ∧
    oidValueDecoder none ⟨none, [⟨0, 0, 6⟩]⟩ 3 [0x2A, 0x80, 0x01] =
      .error .malformed := by
  constructor
  · exact oid_leading_zero_rejected.1 [0x2A] [0x01] [0x2A] (by rfl)
  · exact oid_leading_zero_rejected.2.1 none ⟨none, [⟨0, 0, 6⟩]⟩ ⟨0, 0, 6⟩
      [0x2A] [0x01] [0x2A] [] (by rfl) (by rfl) (by rfl)

/-- C7: for every successfully decoded ObjectIdentifier the first
combined sub-identifier `s0` is split into the two leading arcs as
`(0, s0)` when `s0 < 40`, `(1, s0 - 40)` when `40 ≤ s0 < 80` and
`(2, s0 - 80)` when `s0 ≥ 80`; in particular `06 03 2A 03 04` decodes to
the OID 1.2.3.4. -/
theorem oid_leading_arcs_split :
    (∀ sp ts t0 content s0 tl rest,
        tagSetHead ts = .ok t0 → t0.tagFormat = tagFormatSimple →
        parseSubIds content = .ok (s0 :: tl) →
        (s0 < 40 →
          oidValueDecoder sp ts (content.length : Int) (content ++ rest) =
            .ok (.val (some (.oidV (componentTagSet sp ts) (0 :: s0 :: tl))), rest)) ∧
        (40 ≤ s0 → s0 < 80 →
          oidValueDecoder sp ts (content.length : Int) (content ++ rest) =
            .ok (.val (some (.oidV (componentTagSet sp ts) (1 :: (s0 - 40) :: tl))), rest)) ∧
        (80 ≤ s0 →
          oidValueDecoder sp ts (content.length : Int) (content ++ rest) =
            .ok (.val (some (.oidV (componentTagSet sp ts) (2 :: (s0 - 80) :: tl))), rest))) ∧
    decode [0x06, 0x03, 0x2A, 0x03, 0x04] none =
      .ok (.val (some (.oidV ⟨none, [⟨0, 0, 6⟩]⟩ [1, 2, 3, 4])), []) := by
  refine ⟨?_, by rfl⟩
  intro sp ts t0 content s0 tl rest hts hfmt hparse
  have hne : content ≠ [] := by
    intro hc
    rw [hc] at hparse
    simp [parseSubIds, subIdScan] at hparse
  have hbase : oidValueDecoder sp ts (content.length : Int) (content ++ rest) =
      match splitLeadingArcs (s0 :: tl) with
      | .error e => .error e
      | .ok arcs => .ok (.val (some (.oidV (componentTagSet sp ts) arcs)), rest) := by
    simp only [oidValueDecoder, hts]
    rw [if_neg (by simp [hfmt]), readExact_len_append]
    simp only []
    rw [if_neg hne, hparse]
  refine ⟨?_, ?_, ?_⟩
  · intro h1
    rw [hbase]
    simp only [splitLeadingArcs]
    rw [if_pos (by omega)]
  · intro h1 h2
    rw [hbase]
    simp only [splitLeadingArcs]
    rw [if_neg (by omega), if_pos (by omega)]
  · intro h1
    rw [hbase]
    simp only [splitLeadingArcs]
    rw [if_neg (by omega), if_neg (by omega)]

/-- Witness for C7: content `2A 03 04`, first sub-identifier 42 in the
middle band. -/
theorem oid_leading_arcs_split_witness :
    oidValueDecoder none ⟨none, [⟨0, 0, 6⟩]⟩ 3 [0x2A, 0x03, 0x04] =
      .ok (.val (some (.oidV ⟨none, [⟨0, 0, 6⟩]⟩ [1, 2, 3, 4])), []) :=
  ((oid_leading_arcs_split.1 none ⟨none, [⟨0, 0, 6⟩]⟩ ⟨0, 0, 6⟩
      [0x2A, 0x03, 0x04] 42 [3, 4] [] (by rfl) (by rfl) (by rfl)).2.1
    (by decide) (by decide))

/-! ### C9: empty schemaless constructed value -/

/-- C9: schemaless decoding of a constructed TLV with zero content
octets — definite length 0, or an indefinite-length body immediately
followed by the end-of-contents sentinel — yields the absent value
(Python `None`) rather than an empty container; in particular `30 00`
and `30 80 00 00` decode to the absent value. -/
theorem schemaless_empty_constructed_absent :
    (∀ (fuel : Nat) isSet ts t0 bs,
        tagSetHead ts = .ok t0 → t0.tagFormat = tagFormatConstructed →
        constructedDef (fuel + 2) isSet none ts 0 bs false = .ok (.val none, bs)) ∧
    (∀ (fuel : Nat) isSet ts t0 rest,
        tagSetHead ts = .ok t0 → t0.tagFormat = tagFormatConstructed →
        constructedIndef (fuel + 3) isSet none ts (0 :: 0 :: rest) false =
          .ok (.val none, rest)) ∧
    decode [0x30, 0x00] none = .ok (.val none, []) ∧
    decode [0x30, 0x80, 0x00, 0x00] none = .ok (.val none, []) := by
  refine ⟨?_, ?_, by rfl, by rfl⟩
  · intro fuel isSet ts t0 bs hts hfmt
    simp only [constructedDef, hts]
    rw [if_neg (by simp [hfmt])]
    simp only [Bool.false_eq_true, if_false, schemalessLoop]
    rw [if_neg (by omega)]
    simp [schemalessFinish]
  · intro fuel isSet ts t0 rest hts hfmt
    simp only [constructedIndef, hts]
    rw [if_neg (by simp [hfmt])]
    simp only [Bool.false_eq_true, if_false, schemalessLoop]
    rw [if_pos (by norm_num)]
    simp only [singleItemDecode, supportIndefLength]
    norm_num
    rw [if_neg (by omega)]
    simp [schemalessFinish]

/-- Witness for C9 at concrete inputs. -/
theorem schemaless_empty_constructed_absent_witness :
    constructedDef 7 false none ⟨none, [⟨0, 0x20, 0x10⟩]⟩ 0 [9, 9] false =
      .ok (.val none, [9, 9]) ∧
    constructedIndef 8 true none ⟨none, [⟨0, 0x20, 0x11⟩]⟩ [0, 0, 5] false =
      .ok (.val none, [5]) := by
  constructor
  · exact schemaless_empty_constructed_absent.1 5 false
      ⟨none, [⟨0, 0x20, 0x10⟩]⟩ ⟨0, 0x20, 0x10⟩ [9, 9] (by rfl) (by rfl)
  · exact schemaless_empty_constructed_absent.2.1 5 true
      ⟨none, [⟨0, 0x20, 0x11⟩]⟩ ⟨0, 0x20, 0x11⟩ [5] (by rfl) (by rfl)

/-! ### C6: schemaless container shape heuristic -/

/-- The tag-set signature of a decoded component, as collected in the
`componentTypes` set of `_decodeComponentsSchemaless`. -/
def keyOfValue (c : Asn1Value) : List (Nat × Nat) := chainKey c.tagSet.superTags

/-- The contents of a Python set built by inserting the elements of a
list one by one. -/
def listDedup (l : List (List (Nat × Nat))) : List (List (Nat × Nat)) :=
  l.foldl (fun s k => setInsert k s) []

theorem listDedup_append_one (l : List (List (Nat × Nat))) (k : List (Nat × Nat)) :
    listDedup (l ++ [k]) = setInsert k (listDedup l) := by
  simp [listDedup, List.foldl_append]

/-- Shape invariant of the `_decodeComponentsSchemaless` loop: whenever
it returns an object (not `None`), that object is the guessed container
carrying the prototype base tag and the outer chain, its record flag is
set exactly when the children exhibit more than one distinct tag-set
signature, and its children are the decoded components. -/
theorem schemalessLoop_shape :
    ∀ (fuel : Nat) (isSet : Bool) (outer : TagSet) (len : Int)
      (origPos : Nat) (comps : List Asn1Value)
      (ctypes : List (List (Nat × Nat))) (bs : List Nat) (v : Asn1Value)
      (rest : List Nat),
      schemalessLoop fuel isSet outer len origPos comps ctypes
        (if comps.isEmpty then none
         else some (.containerV ⟨some (protoBaseTag isSet), outer.superTags⟩
           isSet (ctypes.length > 1) [])) bs = .ok (some v, rest) →
      ctypes = listDedup (comps.map keyOfValue) →
      ∃ children : List Asn1Value, ¬ children.isEmpty ∧
        v = .containerV ⟨some (protoBaseTag isSet), outer.superTags⟩ isSet
          ((listDedup (children.map keyOfValue)).length > 1) children := by
  intro fuel
  induction fuel with
  | zero =>
      intro isSet outer len origPos comps ctypes bs v rest h hinv
      simp [schemalessLoop] at h
  | succ fuel ih =>
      intro isSet outer len origPos comps ctypes bs v rest h hinv
      simp only [schemalessLoop] at h
      have hfin : ∀ rest2 : List Nat,
          schemalessFinish
            (if comps.isEmpty then none
             else some (.containerV ⟨some (protoBaseTag isSet), outer.superTags⟩
               isSet (ctypes.length > 1) [])) comps rest2 = .ok (some v, rest) →
          ∃ children : List Asn1Value, ¬ children.isEmpty ∧
            v = .containerV ⟨some (protoBaseTag isSet), outer.superTags⟩ isSet
              ((listDedup (children.map keyOfValue)).length > 1) children := by
        intro rest2 hf
        cases hcomps : comps.isEmpty with
        | true => rw [hcomps] at hf; simp [schemalessFinish] at hf
        | false =>
            rw [hcomps] at hf
            simp only [Bool.false_eq_true, if_false, schemalessFinish,
              Except.ok.injEq, Option.some.injEq, Prod.mk.injEq] at hf
            refine ⟨comps, by simp [hcomps], ?_⟩
            rw [← hf.1, hinv]
      split at h
      · -- loop iteration
        cases hchild : singleItemDecode fuel bs none none
            (decide (len = -1)) false with
        | error e => rw [hchild] at h; simp at h
        | ok p =>
            rw [hchild] at h
            obtain ⟨o, rest1⟩ := p
            match o with
            | .eoo => exact hfin rest1 h
            | .val none => simp at h
            | .noVal => simp at h
            | .raw _ => simp at h
            | .val (some c) =>
                simp only at h
                have hinv2 : setInsert (chainKey c.tagSet.superTags) ctypes =
                    listDedup ((comps ++ [c]).map keyOfValue) := by
                  simp only [List.map_append, List.map_cons, List.map_nil]
                  rw [listDedup_append_one, ← hinv]
                  rfl
                have hne : (comps ++ [c]).isEmpty = false := by simp
                have h2 := h
                rw [show (some (Asn1Value.containerV
                    ⟨some (protoBaseTag isSet), outer.superTags⟩ isSet
                    ((setInsert (chainKey c.tagSet.superTags) ctypes).length > 1) [])) =
                  (if (comps ++ [c]).isEmpty then none
                   else some (.containerV ⟨some (protoBaseTag isSet), outer.superTags⟩
                     isSet (((listDedup ((comps ++ [c]).map keyOfValue))).length > 1) [])) by
                    rw [hne]
                    simp only [Bool.false_eq_true, if_false, hinv2]] at h2
                rw [hinv2] at h2
                exact ih isSet outer len origPos (comps ++ [c])
                  (listDedup ((comps ++ [c]).map keyOfValue)) rest1 v rest h2
                  rfl
      · exact hfin bs h

/-- C6: in schemaless decoding of a constructed value with at least one
child, the resulting container is the record type exactly when the
decoded children exhibit two or more distinct tag sets (otherwise the
homogeneous type), and the container carries the original outer tag
chain.  The concrete inputs `30 05 02 01 01 05 00` (distinct child tags)
and `30 06 02 01 01 02 01 02` (equal child tags) illustrate both
shapes. -/
theorem schemaless_container_shape :
    (∀ (fuel : Nat) isSet ts len bs v rest,
        constructedDef (fuel + 1) isSet none ts len bs false =
          .ok (.val (some v), rest) →
        ∃ children : List Asn1Value, ¬ children.isEmpty ∧
          v = .containerV ⟨some (protoBaseTag isSet), ts.superTags⟩ isSet
            ((listDedup (children.map keyOfValue)).length > 1) children) ∧
    (∀ (fuel : Nat) isSet ts bs v rest,
        constructedIndef (fuel + 1) isSet none ts bs false =
          .ok (.val (some v), rest) →
        ∃ children : List Asn1Value, ¬ children.isEmpty ∧
          v = .containerV ⟨some (protoBaseTag isSet), ts.superTags⟩ isSet
            ((listDedup (children.map keyOfValue)).length > 1) children) ∧
    decode [0x30, 0x05, 0x02, 0x01, 0x01, 0x05, 0x00] none =
      .ok (.val (some (.containerV ⟨some ⟨0, 0x20, 0x10⟩, [⟨0, 0x20, 0x10⟩]⟩
        false true
        [.intV ⟨none, [⟨0, 0, 2⟩]⟩ 1, .nullV ⟨none, [⟨0, 0, 5⟩]⟩])), []) ∧
    decode [0x30, 0x06, 0x02, 0x01, 0x01, 0x02, 0x01, 0x02] none =
      .ok (.val (some (.containerV ⟨some ⟨0, 0x20, 0x10⟩, [⟨0, 0x20, 0x10⟩]⟩
        false false
        [.intV ⟨none, [⟨0, 0, 2⟩]⟩ 1, .intV ⟨none, [⟨0, 0, 2⟩]⟩ 2])), []) := by
  have hdef : ∀ (fuel : Nat) isSet ts len bs v rest,
      constructedDef (fuel + 1) isSet none ts len bs false =
        .ok (.val (some v), rest) →
      ∃ children : List Asn1Value, ¬ children.isEmpty ∧
        v = .containerV ⟨some (protoBaseTag isSet), ts.superTags⟩ isSet
          ((listDedup (children.map keyOfValue)).length > 1) children := by
    intro fuel isSet ts len bs v rest h
    simp only [constructedDef] at h
    cases hts : tagSetHead ts with
    | error e => rw [hts] at h; simp at h
    | ok t0 =>
        rw [hts] at h
        simp only at h
        split at h
        · simp at h
        · simp only [Bool.false_eq_true, if_false] at h
          cases hl : schemalessLoop fuel isSet ts len bs.length [] [] none bs with
          | error e => rw [hl] at h; simp at h
          | ok p =>
              rw [hl] at h
              obtain ⟨objOpt, rest1⟩ := p
              simp only [Except.ok.injEq, Prod.mk.injEq, DecOut.val.injEq] at h
              obtain ⟨hobj, hrest⟩ := h
              rw [hobj] at hl
              exact schemalessLoop_shape fuel isSet ts len bs.length [] [] bs v
                rest1 (by simpa using hl) rfl
  have hindef : ∀ (fuel : Nat) isSet ts bs v rest,
      constructedIndef (fuel + 1) isSet none ts bs false =
        .ok (.val (some v), rest) →
      ∃ children : List Asn1Value, ¬ children.isEmpty ∧
        v = .containerV ⟨some (protoBaseTag isSet), ts.superTags⟩ isSet
          ((listDedup (children.map keyOfValue)).length > 1) children := by
    intro fuel isSet ts bs v rest h
    simp only [constructedIndef] at h
    cases hts : tagSetHead ts with
    | error e => rw [hts] at h; simp at h
    | ok t0 =>
        rw [hts] at h
        simp only at h
        split at h
        · simp at h
        · simp only [Bool.false_eq_true, if_false] at h
          cases hl : schemalessLoop fuel isSet ts (-1) bs.length [] [] none bs with
          | error e => rw [hl] at h; simp at h
          | ok p =>
              rw [hl] at h
              obtain ⟨objOpt, rest1⟩ := p
              simp only [Except.ok.injEq, Prod.mk.injEq, DecOut.val.injEq] at h
              obtain ⟨hobj, hrest⟩ := h
              rw [hobj] at hl
              exact schemalessLoop_shape fuel isSet ts (-1) bs.length [] [] bs v
                rest1 (by simpa using hl) rfl
  exact ⟨hdef, hindef, by rfl, by rfl⟩

/-- Witness for C6: the record-shaped container decoded from
`02 01 01 05 00` under an outer Sequence tag. -/
theorem schemaless_container_shape_witness :
    ∃ children : List Asn1Value, ¬ children.isEmpty ∧
      Asn1Value.containerV ⟨some ⟨0, 0x20, 0x10⟩, [⟨0, 0x20, 0x10⟩]⟩
          false true
          [.intV ⟨none, [⟨0, 0, 2⟩]⟩ 1, .nullV ⟨none, [⟨0, 0, 5⟩]⟩] =
        .containerV ⟨some (protoBaseTag false), [⟨0, 0x20, 0x10⟩]⟩ false
          ((listDedup (children.map keyOfValue)).length > 1) children :=
  schemaless_container_shape.1 30 false ⟨none, [⟨0, 0x20, 0x10⟩]⟩ 5
    [0x02, 0x01, 0x01, 0x05, 0x00]
    (.containerV ⟨some ⟨0, 0x20, 0x10⟩, [⟨0, 0x20, 0x10⟩]⟩ false true
      [.intV ⟨none, [⟨0, 0, 2⟩]⟩ 1, .nullV ⟨none, [⟨0, 0, 5⟩]⟩]) []
    (by rfl)

/-! ### C5: required components of schema-guided records -/

/-- C5: when a Sequence or Set is decoded against a named-type catalogue,
the decoder raises the missing-required-component error after the
component loop unless every index in the catalogue's required-component
set was assigned, and a record value is yielded only when all required
indices are filled.  The wiring conjuncts show that both the definite-
and indefinite-length record paths pass their loop result through this
check.  The concrete input `30 03 02 01 01` against a two-slot catalogue
of required Integers is rejected. -/
theorem required_components_check :
    (∀ s isSet nts r out rest,
        recordFinish s isSet nts r = .ok (out, rest) →
        ∃ asgn seen, r = .ok (asgn, seen, rest) ∧
          ∀ i ∈ requiredIndices nts, seen.contains i = true) ∧
    (∀ s isSet nts asgn seen rest,
        ¬ (∀ i ∈ requiredIndices nts, seen.contains i = true) →
        recordFinish s isSet nts (.ok (asgn, seen, rest)) =
          .error .missingRequired) ∧
    (∀ (fuel : Nat) (nts : List NamedType) (len : Int) (bs : List Nat),
        specConstructedDef (fuel + 1) false (.sequenceSp nts) len bs =
          recordFinish (.sequenceSp nts) false nts
            (recordLoopDef fuel false nts (!hasOptionalOrDefault nts)
              bs.length len [] [] 0 bs)) ∧
    (∀ (fuel : Nat) (nts : List NamedType) (len : Int) (bs : List Nat),
        specConstructedDef (fuel + 1) true (.setSp nts) len bs =
          recordFinish (.setSp nts) true nts
            (recordLoopDef fuel true nts false bs.length len [] [] 0 bs)) ∧
    (∀ (fuel : Nat) (nts : List NamedType) (bs : List Nat),
        specConstructedIndef (fuel + 1) false (.sequenceSp nts) bs =
          recordFinish (.sequenceSp nts) false nts
            (recordLoopIndef fuel false nts (!hasOptionalOrDefault nts)
              [] [] 0 bs)) ∧
    (∀ (fuel : Nat) (nts : List NamedType) (bs : List Nat),
        specConstructedIndef (fuel + 1) true (.setSp nts) bs =
          recordFinish (.setSp nts) true nts
            (recordLoopIndef fuel true nts false [] [] 0 bs)) ∧
    decode [0x30, 0x03, 0x02, 0x01, 0x01]
        (some (.one (.sequenceSp
          [(.integerSp, false, false), (.integerSp, false, false)]))) =
      .error .missingRequired := by
  refine ⟨?_, ?_, fun fuel nts len bs => rfl, fun fuel nts len bs => rfl,
    fun fuel nts bs => rfl, fun fuel nts bs => rfl, by rfl⟩
  · intro s isSet nts r out rest h
    match r with
    | .error e => simp [recordFinish] at h
    | .ok (asgn, seen, rest2) =>
        refine ⟨asgn, seen, ?_⟩
        simp only [recordFinish] at h
        split at h
        · simp at h
        · rename_i hguard
          simp only [Except.ok.injEq, Prod.mk.injEq] at h
          obtain ⟨-, hr⟩ := h
          subst hr
          refine ⟨rfl, ?_⟩
          rcases not_and_or.mp hguard with hcase | hcase
          · -- empty catalogue: no required indices
            have hempty : nts.isEmpty = true := by
              by_contra hne
              exact hcase (by simpa using hne)
            intro i hi
            have : nts = [] := by
              cases nts with
              | nil => rfl
              | cons a tl => simp at hempty
            rw [this] at hi
            simp [requiredIndices] at hi
          · intro i hi
            have hall : (requiredIndices nts).all (fun i => seen.contains i) = true := by
              by_contra hno
              exact hcase (by simpa using hno)
            exact (List.all_eq_true.mp hall) i hi
  · intro s isSet nts asgn seen rest hmiss
    push_neg at hmiss
    obtain ⟨i, hi, hnc⟩ := hmiss
    have hne : ¬ nts.isEmpty = true := by
      intro he
      have hnil : nts = [] := by
        cases nts with
        | nil => rfl
        | cons a tl => simp at he
      rw [hnil] at hi
      simp [requiredIndices] at hi
    have hnall : ¬ (requiredIndices nts).all (fun i => seen.contains i) = true := by
      intro hall
      exact hnc ((List.all_eq_true.mp hall) i hi)
    simp only [recordFinish]
    rw [if_pos ⟨hne, hnall⟩]

/-- Witness for C5: a two-slot catalogue of required Integers with only
slot 0 assigned is rejected by the post-loop check. -/
theorem required_components_check_witness :
    recordFinish
        (.sequenceSp [(.integerSp, false, false), (.integerSp, false, false)])
        false [(.integerSp, false, false), (.integerSp, false, false)]
        (.ok ([(0, some (.intV (specTagSet .integerSp) 1))], [0], [])) =
      .error .missingRequired := by
  apply required_components_check.2.1
  decide

/-! ### C2: the one-shot decoder and its trailing octets

The key fact is that every decoder function only consumes octets: the
remainder it returns with a successful result is a suffix of its input.
The lemmas below establish this for the non-recursive readers, and
`SuffixFacts` extends it through the whole mutually recursive decoder by
induction on the fuel. -/

theorem readExact_suffix (n : Int) (bs c rest : List Nat) :
    readExact n bs = .ok (c, rest) → rest <:+ bs := by
  unfold readExact
  intro h
  split at h
  · simp at h
    simp [h]
  · split at h
    · simp at h
      rw [← h.2]
      exact List.drop_suffix _ _
    · simp at h

theorem decodeLongTagId_suffix :
    ∀ (bs : List Nat) (acc v : Nat) (rest : List Nat),
      decodeLongTagId acc bs = .ok (v, rest) → rest <:+ bs := by
  intro bs
  induction bs with
  | nil => intro acc v rest h; simp [decodeLongTagId] at h
  | cons b tl ih =>
      intro acc v rest h
      simp only [decodeLongTagId] at h
      split at h
      · exact (ih _ _ _ h).trans (List.suffix_cons b tl)
      · simp at h
        rw [← h.2]
        exact List.suffix_cons b tl

theorem decodeTag_suffix (bs : List Nat) (t : Tag) (rest : List Nat) :
    decodeTag bs = .ok (t, rest) → rest <:+ bs := by
  unfold decodeTag
  intro h
  match bs with
  | [] => simp at h
  | b :: tl =>
      simp only at h
      split at h
      · cases hl : decodeLongTagId 0 tl with
        | error e => rw [hl] at h; simp at h
        | ok p =>
            rw [hl] at h
            obtain ⟨v, rest2⟩ := p
            simp at h
            rw [← h.2]
            exact (decodeLongTagId_suffix tl 0 v rest2 hl).trans
              (List.suffix_cons b tl)
      · simp at h
        rw [← h.2]
        exact List.suffix_cons b tl

theorem decodeLength_suffix (bs : List Nat) (len : Int) (rest : List Nat) :
    decodeLength bs = .ok (len, rest) → rest <:+ bs := by
  unfold decodeLength
  intro h
  match bs with
  | [] => simp at h
  | l0 :: tl =>
      simp only at h
      split at h
      · simp at h
        rw [← h.2]
        exact List.suffix_cons l0 tl
      · split at h
        · cases hr : readExact ((l0 &&& 0x7F : Nat) : Int) tl with
          | error e => rw [hr] at h; simp at h
          | ok p =>
              rw [hr] at h
              obtain ⟨c, rest2⟩ := p
              simp at h
              rw [← h.2]
              exact (readExact_suffix _ _ _ _ hr).trans (List.suffix_cons l0 tl)
        · simp at h
          rw [← h.2]
          exact List.suffix_cons l0 tl

theorem decodeHeader_suffix (tagSetIn : Option TagSet) (bs : List Nat)
    (ts : TagSet) (len : Int) (rest : List Nat) :
    decodeHeader tagSetIn bs = .ok (ts, len, rest) → rest <:+ bs := by
  unfold decodeHeader
  intro h
  cases ht : decodeTag bs with
  | error e => rw [ht] at h; simp at h
  | ok p =>
      rw [ht] at h
      obtain ⟨t, rest1⟩ := p
      simp only at h
      cases hl : decodeLength rest1 with
      | error e => rw [hl] at h; simp at h
      | ok q =>
          rw [hl] at h
          obtain ⟨len2, rest2⟩ := q
          simp only at h
          split at h
          · simp at h
          · simp at h
            rw [← h.2.2]
            exact (decodeLength_suffix _ _ _ hl).trans (decodeTag_suffix _ _ _ ht)

theorem integerValueDecoder_suffix (sp : Option Asn1Spec) (ts : TagSet)
    (len : Int) (bs : List Nat) (o : DecOut) (rest : List Nat) :
    integerValueDecoder sp ts len bs = .ok (o, rest) → rest <:+ bs := by
  unfold integerValueDecoder
  intro h
  cases hts : tagSetHead ts with
  | error e => rw [hts] at h; simp at h
  | ok t0 =>
      rw [hts] at h
      simp only at h
      split at h
      · simp at h
      · cases hr : readExact len bs with
        | error e => rw [hr] at h; simp at h
        | ok p =>
            rw [hr] at h
            obtain ⟨c, rest2⟩ := p
            simp at h
            rw [← h.2]
            exact readExact_suffix _ _ _ _ hr

theorem booleanValueDecoder_suffix (sp : Option Asn1Spec) (ts : TagSet)
    (len : Int) (bs : List Nat) (o : DecOut) (rest : List Nat) :
    booleanValueDecoder sp ts len bs = .ok (o, rest) → rest <:+ bs := by
  unfold booleanValueDecoder
  intro h
  cases hts : tagSetHead ts with
  | error e => rw [hts] at h; simp at h
  | ok t0 =>
      rw [hts] at h
      simp only at h
      split at h
      · simp at h
      · cases hr : readExact len bs with
        | error e => rw [hr] at h; simp at h
        | ok p =>
            rw [hr] at h
            obtain ⟨c, rest2⟩ := p
            simp at h
            rw [← h.2]
            exact readExact_suffix _ _ _ _ hr

theorem nullValueDecoder_suffix (sp : Option Asn1Spec) (ts : TagSet)
    (len : Int) (bs : List Nat) (o : DecOut) (rest : List Nat) :
    nullValueDecoder sp ts len bs = .ok (o, rest) → rest <:+ bs := by
  unfold nullValueDecoder
  intro h
  cases hts : tagSetHead ts with
  | error e => rw [hts] at h; simp at h
  | ok t0 =>
      rw [hts] at h
      simp only at h
      split at h
      · simp at h
      · cases hr : readExact len bs with
        | error e => rw [hr] at h; simp at h
        | ok p =>
            rw [hr] at h
            obtain ⟨c, rest2⟩ := p
            simp only at h
            split at h
            · simp at h
            · simp at h
              rw [← h.2]
              exact readExact_suffix _ _ _ _ hr

theorem oidValueDecoder_suffix (sp : Option Asn1Spec) (ts : TagSet)
    (len : Int) (bs : List Nat) (o : DecOut) (rest : List Nat) :
    oidValueDecoder sp ts len bs = .ok (o, rest) → rest <:+ bs := by
  unfold oidValueDecoder
  intro h
  cases hts : tagSetHead ts with
  | error e => rw [hts] at h; simp at h
  | ok t0 =>
      rw [hts] at h
      simp only at h
      split at h
      · simp at h
      · cases hr : readExact len bs with
        | error e => rw [hr] at h; simp at h
        | ok p =>
            rw [hr] at h
            obtain ⟨c, rest2⟩ := p
            simp only at h
            split at h
            · simp at h
            · split at h
              · simp at h
              · split at h
                · simp at h
                · simp at h
                  rw [← h.2]
                  exact readExact_suffix _ _ _ _ hr

theorem realValueDecoder_suffix (sp : Option Asn1Spec) (ts : TagSet)
    (len : Int) (bs : List Nat) (o : DecOut) (rest : List Nat) :
    realValueDecoder sp ts len bs = .ok (o, rest) → rest <:+ bs := by
  unfold realValueDecoder
  intro h
  cases hts : tagSetHead ts with
  | error e => rw [hts] at h; simp at h
  | ok t0 =>
      rw [hts] at h
      simp only at h
      split at h
      · simp at h
      · cases hr : readExact len bs with
        | error e => rw [hr] at h; simp at h
        | ok p =>
            rw [hr] at h
            obtain ⟨c, rest2⟩ := p
            simp only at h
            have hsuf : rest2 <:+ bs := readExact_suffix _ _ _ _ hr
            split at h <;> (try (repeat' (split at h))) <;>
              first
                | (simp at h; rw [← h.2]; exact hsuf)
                | (simp at h)

theorem schemalessFinish_rest (lastObj : Option Asn1Value)
    (comps : List Asn1Value) (r : List Nat) (v : Option Asn1Value)
    (rest : List Nat) :
    schemalessFinish lastObj comps r = .ok (v, rest) → rest = r := by
  unfold schemalessFinish
  intro h
  split at h <;> simp at h <;> simp [h]

theorem recordFinish_ok (s : Asn1Spec) (isSet : Bool) (nts : List NamedType)
    (r : Except DecErr (List (Nat × Option Asn1Value) × List Nat × List Nat))
    (out : DecOut) (rest : List Nat) :
    recordFinish s isSet nts r = .ok (out, rest) →
    ∃ asgn seen, r = .ok (asgn, seen, rest) := by
  intro h
  match r with
  | .error e => simp [recordFinish] at h
  | .ok (asgn, seen, rest2) =>
      refine ⟨asgn, seen, ?_⟩
      simp only [recordFinish] at h
      split at h
      · simp at h
      · simp at h
        rw [h.2]

/-- The decoder functions only consume octets: whenever one of them
succeeds, the remainder it returns is a suffix of the octet stream it was
given. -/
structure SuffixFacts (fuel : Nat) : Prop where
  single : ∀ bs spec tsIn aE coll out rest,
    singleItemDecode fuel bs spec tsIn aE coll = .ok (out, rest) → rest <:+ bs
  header : ∀ bs spec tsIn coll out rest,
    headerThenBody fuel bs spec tsIn coll = .ok (out, rest) → rest <:+ bs
  body : ∀ spec ts len bs coll out rest,
    decodeBody fuel spec ts len bs coll = .ok (out, rest) → rest <:+ bs
  tryTag : ∀ spec ts len bs coll out rest,
    tryAsExplicitTag fuel spec ts len bs coll = .ok (out, rest) → rest <:+ bs
  valSt : ∀ kind chosen origSpec ts len bs coll out rest,
    decodeValueSt fuel kind chosen origSpec ts len bs coll = .ok (out, rest) →
      rest <:+ bs
  pDef : ∀ kind chosen origSpec ts len bs coll out rest,
    payloadDef fuel kind chosen origSpec ts len bs coll = .ok (out, rest) →
      rest <:+ bs
  pIndef : ∀ kind chosen origSpec ts bs coll out rest,
    payloadIndef fuel kind chosen origSpec ts bs coll = .ok (out, rest) →
      rest <:+ bs
  rawD : ∀ origSpec ts len bs coll out rest,
    rawDef fuel origSpec ts len bs coll = .ok (out, rest) → rest <:+ bs
  rawL : ∀ bs origSpec ts last out rest,
    rawIndefLoop fuel bs origSpec ts last = .ok (out, rest) → rest <:+ bs
  octD : ∀ chosen ts len bs coll out rest,
    octetsDef fuel chosen ts len bs coll = .ok (out, rest) → rest <:+ bs
  octF : ∀ origPos len acc bs c rest,
    octetsFragsDef fuel origPos len acc bs = .ok (c, rest) → rest <:+ bs
  octL : ∀ ts chosen acc bs out rest,
    octetsIndefLoop fuel ts chosen acc bs = .ok (out, rest) → rest <:+ bs
  bitD : ∀ chosen ts len bs coll out rest,
    bitsDef fuel chosen ts len bs coll = .ok (out, rest) → rest <:+ bs
  bitF : ∀ origPos len acc bs c rest,
    bitsFragsDef fuel origPos len acc bs = .ok (c, rest) → rest <:+ bs
  bitL : ∀ ts chosen acc bs out rest,
    bitsIndefLoop fuel ts chosen acc bs = .ok (out, rest) → rest <:+ bs
  consD : ∀ isSet chosen ts len bs coll out rest,
    constructedDef fuel isSet chosen ts len bs coll = .ok (out, rest) →
      rest <:+ bs
  consI : ∀ isSet chosen ts bs coll out rest,
    constructedIndef fuel isSet chosen ts bs coll = .ok (out, rest) → rest <:+ bs
  schem : ∀ isSet outer len origPos comps ctypes lastObj bs v rest,
    schemalessLoop fuel isSet outer len origPos comps ctypes lastObj bs =
      .ok (v, rest) → rest <:+ bs
  specD : ∀ isSet s len bs out rest,
    specConstructedDef fuel isSet s len bs = .ok (out, rest) → rest <:+ bs
  specI : ∀ isSet s bs out rest,
    specConstructedIndef fuel isSet s bs = .ok (out, rest) → rest <:+ bs
  recD : ∀ isSet nts isDet origPos len asgn seen idx bs a sn rest,
    recordLoopDef fuel isSet nts isDet origPos len asgn seen idx bs =
      .ok (a, sn, rest) → rest <:+ bs
  recI : ∀ isSet nts isDet asgn seen idx bs a sn rest,
    recordLoopIndef fuel isSet nts isDet asgn seen idx bs = .ok (a, sn, rest) →
      rest <:+ bs
  sofD : ∀ elem origPos len children bs c rest,
    seqOfLoopDef fuel elem origPos len children bs = .ok (c, rest) → rest <:+ bs
  sofI : ∀ elem children bs c rest,
    seqOfLoopIndef fuel elem children bs = .ok (c, rest) → rest <:+ bs

theorem suffixFacts : ∀ fuel : Nat, SuffixFacts fuel := by
  intro fuel
  induction fuel with
  | zero =>
      constructor <;>
        · intros
          rename_i h
          simp_all [singleItemDecode, headerThenBody, decodeBody,
            tryAsExplicitTag, decodeValueSt, payloadDef, payloadIndef, rawDef,
            rawIndefLoop, octetsDef, octetsFragsDef, octetsIndefLoop, bitsDef,
            bitsFragsDef, bitsIndefLoop, constructedDef, constructedIndef,
            schemalessLoop, specConstructedDef, specConstructedIndef,
            recordLoopDef, recordLoopIndef, seqOfLoopDef, seqOfLoopIndef]
  | succ fuel ih =>
      refine ⟨?_, ?_, ?_, ?_, ?_, ?_, ?_, ?_, ?_, ?_, ?_, ?_, ?_, ?_, ?_, ?_,
        ?_, ?_, ?_, ?_, ?_, ?_, ?_, ?_⟩
      · -- singleItemDecode
        intro bs spec tsIn aE coll out rest h
        simp only [singleItemDecode] at h
        split at h
        · split at h
          · simp at h
          · split at h
            · simp at h
              rw [← h.2]
              exact List.drop_suffix 2 bs
            · exact ih.header _ _ _ _ _ _ h
        · exact ih.header _ _ _ _ _ _ h
      · -- headerThenBody
        intro bs spec tsIn coll out rest h
        simp only [headerThenBody] at h
        cases hh : decodeHeader tsIn bs with
        | error e => rw [hh] at h; simp at h
        | ok p =>
            rw [hh] at h
            obtain ⟨ts, len, rest2⟩ := p
            exact (ih.body _ _ _ _ _ _ _ h).trans
              (decodeHeader_suffix _ _ _ _ _ hh)
      · -- decodeBody
        intro spec ts len bs coll out rest h
        simp only [decodeBody] at h
        split at h
        · split at h
          · exact ih.valSt _ _ _ _ _ _ _ _ _ h
          · exact ih.tryTag _ _ _ _ _ _ _ h
        · split at h
          · exact ih.valSt _ _ _ _ _ _ _ _ _ h
          · exact ih.tryTag _ _ _ _ _ _ _ h
      · -- tryAsExplicitTag
        intro spec ts len bs coll out rest h
        simp only [tryAsExplicitTag] at h
        split at h
        · split at h
          · exact ih.valSt _ _ _ _ _ _ _ _ _ h
          · simp at h
        · simp at h
      · -- decodeValueSt
        intro kind chosen origSpec ts len bs coll out rest h
        simp only [decodeValueSt] at h
        split at h
        · exact ih.pIndef _ _ _ _ _ _ _ _ h
        · cases hp : payloadDef fuel kind chosen origSpec ts len bs coll with
          | error e => rw [hp] at h; simp at h
          | ok p =>
              rw [hp] at h
              obtain ⟨o1, r1⟩ := p
              simp only at h
              split at h
              · simp at h
              · simp at h
                rw [← h.2]
                exact ih.pDef _ _ _ _ _ _ _ _ _ hp
      · -- payloadDef
        intro kind chosen origSpec ts len bs coll out rest h
        simp only [payloadDef] at h
        match kind with
        | .integerK => exact integerValueDecoder_suffix _ _ _ _ _ _ h
        | .booleanK => exact booleanValueDecoder_suffix _ _ _ _ _ _ h
        | .nullK => exact nullValueDecoder_suffix _ _ _ _ _ _ h
        | .oidK => exact oidValueDecoder_suffix _ _ _ _ _ _ h
        | .realK => exact realValueDecoder_suffix _ _ _ _ _ _ h
        | .octetsK => exact ih.octD _ _ _ _ _ _ _ h
        | .bitsK => exact ih.bitD _ _ _ _ _ _ _ h
        | .seqLikeK isSet => exact ih.consD _ _ _ _ _ _ _ _ h
        | .rawK => exact ih.rawD _ _ _ _ _ _ _ h
      · -- payloadIndef
        intro kind chosen origSpec ts bs coll out rest h
        simp only [payloadIndef] at h
        match kind with
        | .integerK => simp at h
        | .booleanK => simp at h
        | .nullK => simp at h
        | .oidK => simp at h
        | .realK => simp at h
        | .octetsK => exact ih.octL _ _ _ _ _ _ h
        | .bitsK =>
            simp only at h
            split at h
            · simp at h
              rw [h.2]
              exact List.nil_suffix
            · exact ih.bitL _ _ _ _ _ _ h
        | .seqLikeK isSet => exact ih.consI _ _ _ _ _ _ _ h
        | .rawK =>
            simp only at h
            split at h
            · simp at h
              rw [h.2]
              exact List.nil_suffix
            · exact ih.rawL _ _ _ _ _ _ h
      · -- rawDef
        intro origSpec ts len bs coll out rest h
        simp only [rawDef] at h
        split at h
        · cases hr : readExact len bs with
          | error e => rw [hr] at h; simp at h
          | ok p =>
              rw [hr] at h
              obtain ⟨c, r1⟩ := p
              simp at h
              rw [← h.2]
              exact readExact_suffix _ _ _ _ hr
        · exact ih.single _ _ _ _ _ _ _ h
      · -- rawIndefLoop
        intro bs origSpec ts last out rest h
        simp only [rawIndefLoop] at h
        cases hc : singleItemDecode fuel bs origSpec (some ts) true false with
        | error e => rw [hc] at h; simp at h
        | ok p =>
            rw [hc] at h
            obtain ⟨o1, r1⟩ := p
            have hs : r1 <:+ bs := ih.single _ _ _ _ _ _ _ hc
            match o1 with
            | .eoo =>
                simp at h
                rw [← h.2]
                exact hs
            | .val v => exact (ih.rawL _ _ _ _ _ _ h).trans hs
            | .noVal => exact (ih.rawL _ _ _ _ _ _ h).trans hs
            | .raw c => exact (ih.rawL _ _ _ _ _ _ h).trans hs
      · -- octetsDef
        intro chosen ts len bs coll out rest h
        simp only [octetsDef] at h
        split at h
        · cases hr : readExact len bs with
          | error e => rw [hr] at h; simp at h
          | ok p =>
              rw [hr] at h
              obtain ⟨c, r1⟩ := p
              simp at h
              rw [← h.2]
              exact readExact_suffix _ _ _ _ hr
        · cases hts : tagSetHead ts with
          | error e => rw [hts] at h; simp at h
          | ok t0 =>
              rw [hts] at h
              simp only at h
              split at h
              · cases hr : readExact len bs with
                | error e => rw [hr] at h; simp at h
                | ok p =>
                    rw [hr] at h
                    obtain ⟨c, r1⟩ := p
                    simp at h
                    rw [← h.2]
                    exact readExact_suffix _ _ _ _ hr
              · cases hf : octetsFragsDef fuel bs.length len [] bs with
                | error e => rw [hf] at h; simp at h
                | ok p =>
                    rw [hf] at h
                    obtain ⟨hd, r1⟩ := p
                    simp at h
                    rw [← h.2]
                    exact ih.octF _ _ _ _ _ _ hf
      · -- octetsFragsDef
        intro origPos len acc bs c rest h
        simp only [octetsFragsDef] at h
        split at h
        · cases hc : singleItemDecode fuel bs (some (.one .octetsSp)) none
              false true with
          | error e => rw [hc] at h; simp at h
          | ok p =>
              rw [hc] at h
              obtain ⟨o1, r1⟩ := p
              have hs : r1 <:+ bs := ih.single _ _ _ _ _ _ _ hc
              match o1 with
              | .raw chunk => exact (ih.octF _ _ _ _ _ _ h).trans hs
              | .eoo => simp at h
              | .val v => simp at h
              | .noVal => simp at h
        · simp at h
          rw [← h.2]
      · -- octetsIndefLoop
        intro ts chosen acc bs out rest h
        simp only [octetsIndefLoop] at h
        cases hc : singleItemDecode fuel bs (some (.one .octetsSp)) none
            true true with
        | error e => rw [hc] at h; simp at h
        | ok p =>
            rw [hc] at h
            obtain ⟨o1, r1⟩ := p
            have hs : r1 <:+ bs := ih.single _ _ _ _ _ _ _ hc
            match o1 with
            | .eoo =>
                simp at h
                rw [← h.2]
                exact hs
            | .raw chunk => exact (ih.octL _ _ _ _ _ _ h).trans hs
            | .val v => simp at h
            | .noVal => simp at h
      · -- bitsDef
        intro chosen ts len bs coll out rest h
        simp only [bitsDef] at h
        split at h
        · cases hr : readExact len bs with
          | error e => rw [hr] at h; simp at h
          | ok p =>
              rw [hr] at h
              obtain ⟨c, r1⟩ := p
              simp at h
              rw [← h.2]
              exact readExact_suffix _ _ _ _ hr
        · split at h
          · simp at h
          · split at h
            · simp at h
            · cases hts : tagSetHead ts with
              | error e => rw [hts] at h; simp at h
              | ok t0 =>
                  rw [hts] at h
                  simp only at h
                  split at h
                  · cases h1 : readExact 1 bs with
                    | error e => rw [h1] at h; simp at h
                    | ok p =>
                        rw [h1] at h
                        obtain ⟨tb, r1⟩ := p
                        simp only at h
                        split at h
                        · simp at h
                        · cases h2 : readExact (len - 1) r1 with
                          | error e => rw [h2] at h; simp at h
                          | ok q =>
                              rw [h2] at h
                              obtain ⟨chunk, r2⟩ := q
                              simp at h
                              rw [← h.2]
                              exact (readExact_suffix _ _ _ _ h2).trans
                                (readExact_suffix _ _ _ _ h1)
                  · cases hf : bitsFragsDef fuel bs.length len [] bs with
                    | error e => rw [hf] at h; simp at h
                    | ok p =>
                        rw [hf] at h
                        obtain ⟨bits, r1⟩ := p
                        simp at h
                        rw [← h.2]
                        exact ih.bitF _ _ _ _ _ _ hf
      · -- bitsFragsDef
        intro origPos len acc bs c rest h
        simp only [bitsFragsDef] at h
        split at h
        · cases hc : singleItemDecode fuel bs (some (.one .bitsSp)) none
              false true with
          | error e => rw [hc] at h; simp at h
          | ok p =>
              rw [hc] at h
              obtain ⟨o1, r1⟩ := p
              have hs : r1 <:+ bs := ih.single _ _ _ _ _ _ _ hc
              match o1 with
              | .raw chunk =>
                  match chunk with
                  | [] => simp at h
                  | tb :: payload =>
                      simp only at h
                      split at h
                      · simp at h
                      · exact (ih.bitF _ _ _ _ _ _ h).trans hs
              | .eoo => simp at h
              | .val v => simp at h
              | .noVal => simp at h
        · simp at h
          rw [← h.2]
      · -- bitsIndefLoop
        intro ts chosen acc bs out rest h
        simp only [bitsIndefLoop] at h
        cases hc : singleItemDecode fuel bs (some (.one .bitsSp)) none
            true true with
        | error e => rw [hc] at h; simp at h
        | ok p =>
            rw [hc] at h
            obtain ⟨o1, r1⟩ := p
            have hs : r1 <:+ bs := ih.single _ _ _ _ _ _ _ hc
            match o1 with
            | .eoo =>
                simp at h
                rw [← h.2]
                exact hs
            | .raw chunk =>
                match chunk with
                | [] => simp at h
                | tb :: payload =>
                    simp only at h
                    split at h
                    · simp at h
                    · exact (ih.bitL _ _ _ _ _ _ h).trans hs
            | .val v => simp at h
            | .noVal => simp at h
      · -- constructedDef
        intro isSet chosen ts len bs coll out rest h
        simp only [constructedDef] at h
        cases hts : tagSetHead ts with
        | error e => rw [hts] at h; simp at h
        | ok t0 =>
            rw [hts] at h
            simp only at h
            split at h
            · simp at h
            · split at h
              · cases hr : readExact len bs with
                | error e => rw [hr] at h; simp at h
                | ok p =>
                    rw [hr] at h
                    obtain ⟨c, r1⟩ := p
                    simp at h
                    rw [← h.2]
                    exact readExact_suffix _ _ _ _ hr
              · split at h
                · cases hl : schemalessLoop fuel isSet ts len bs.length [] []
                      none bs with
                  | error e => rw [hl] at h; simp at h
                  | ok p =>
                      rw [hl] at h
                      obtain ⟨objOpt, r1⟩ := p
                      simp at h
                      rw [← h.2]
                      exact ih.schem _ _ _ _ _ _ _ _ _ _ hl
                · exact ih.specD _ _ _ _ _ _ h
      · -- constructedIndef
        intro isSet chosen ts bs coll out rest h
        simp only [constructedIndef] at h
        cases hts : tagSetHead ts with
        | error e => rw [hts] at h; simp at h
        | ok t0 =>
            rw [hts] at h
            simp only at h
            split at h
            · simp at h
            · split at h
              · simp at h
                rw [h.2]
                exact List.nil_suffix
              · split at h
                · cases hl : schemalessLoop fuel isSet ts (-1) bs.length [] []
                      none bs with
                  | error e => rw [hl] at h; simp at h
                  | ok p =>
                      rw [hl] at h
                      obtain ⟨objOpt, r1⟩ := p
                      simp at h
                      rw [← h.2]
                      exact ih.schem _ _ _ _ _ _ _ _ _ _ hl
                · exact ih.specI _ _ _ _ _ h
      · -- schemalessLoop
        intro isSet outer len origPos comps ctypes lastObj bs v rest h
        simp only [schemalessLoop] at h
        split at h
        · cases hc : singleItemDecode fuel bs none none (decide (len = -1))
              false with
          | error e => rw [hc] at h; simp at h
          | ok p =>
              rw [hc] at h
              obtain ⟨o1, r1⟩ := p
              have hs : r1 <:+ bs := ih.single _ _ _ _ _ _ _ hc
              match o1 with
              | .eoo =>
                  rw [schemalessFinish_rest _ _ _ _ _ h]
                  exact hs
              | .val (some c) => exact (ih.schem _ _ _ _ _ _ _ _ _ _ h).trans hs
              | .val none => simp at h
              | .noVal => simp at h
              | .raw c => simp at h
        · rw [schemalessFinish_rest _ _ _ _ _ h]
      · -- specConstructedDef
        intro isSet s len bs out rest h
        simp only [specConstructedDef] at h
        match s with
        | .sequenceSp nts =>
            obtain ⟨asgn, seen, heq⟩ := recordFinish_ok _ _ _ _ _ _ h
            exact ih.recD _ _ _ _ _ _ _ _ _ _ _ _ heq
        | .setSp nts =>
            obtain ⟨asgn, seen, heq⟩ := recordFinish_ok _ _ _ _ _ _ h
            exact ih.recD _ _ _ _ _ _ _ _ _ _ _ _ heq
        | .sequenceOfSp elem =>
            simp only [] at h
            cases hl : seqOfLoopDef fuel elem bs.length len [] bs with
            | error e => rw [hl] at h; simp at h
            | ok p =>
                rw [hl] at h
                obtain ⟨children, r1⟩ := p
                simp at h
                rw [← h.2]
                exact ih.sofD _ _ _ _ _ _ _ hl
        | .integerSp => simp at h
        | .booleanSp => simp at h
        | .bitsSp => simp at h
        | .octetsSp => simp at h
        | .nullSp => simp at h
        | .oidSp => simp at h
        | .realSp => simp at h
      · -- specConstructedIndef
        intro isSet s bs out rest h
        simp only [specConstructedIndef] at h
        match s with
        | .sequenceSp nts =>
            obtain ⟨asgn, seen, heq⟩ := recordFinish_ok _ _ _ _ _ _ h
            exact ih.recI _ _ _ _ _ _ _ _ _ _ heq
        | .setSp nts =>
            obtain ⟨asgn, seen, heq⟩ := recordFinish_ok _ _ _ _ _ _ h
            exact ih.recI _ _ _ _ _ _ _ _ _ _ heq
        | .sequenceOfSp elem =>
            simp only [] at h
            cases hl : seqOfLoopIndef fuel elem [] bs with
            | error e => rw [hl] at h; simp at h
            | ok p =>
                rw [hl] at h
                obtain ⟨children, r1⟩ := p
                simp at h
                rw [← h.2]
                exact ih.sofI _ _ _ _ _ hl
        | .integerSp => simp at h
        | .booleanSp => simp at h
        | .bitsSp => simp at h
        | .octetsSp => simp at h
        | .nullSp => simp at h
        | .oidSp => simp at h
        | .realSp => simp at h
      · -- recordLoopDef
        intro isSet nts isDet origPos len asgn seen idx bs a sn rest h
        simp only [recordLoopDef] at h
        split at h
        · cases hct : componentTypeForDef nts isSet isDet idx with
          | error e => rw [hct] at h; simp at h
          | ok ct =>
              rw [hct] at h
              simp only at h
              cases hc : singleItemDecode fuel bs ct none false false with
              | error e => rw [hc] at h; simp at h
              | ok p =>
                  rw [hc] at h
                  obtain ⟨o1, r1⟩ := p
                  have hs : r1 <:+ bs := ih.single _ _ _ _ _ _ _ hc
                  match o1 with
                  | .val comp =>
                      simp only at h
                      cases hu : updateIdx nts isSet isDet idx comp with
                      | error e => rw [hu] at h; simp at h
                      | ok idx2 =>
                          rw [hu] at h
                          exact (ih.recD _ _ _ _ _ _ _ _ _ _ _ _ h).trans hs
                  | .eoo => simp at h
                  | .noVal => simp at h
                  | .raw c => simp at h
        · simp at h
          rw [← h.2.2]
      · -- recordLoopIndef
        intro isSet nts isDet asgn seen idx bs a sn rest h
        simp only [recordLoopIndef] at h
        cases hc : singleItemDecode fuel bs
            (componentTypeForIndef nts isSet isDet idx) none true false with
        | error e => rw [hc] at h; simp at h
        | ok p =>
            rw [hc] at h
            obtain ⟨o1, r1⟩ := p
            have hs : r1 <:+ bs := ih.single _ _ _ _ _ _ _ hc
            match o1 with
            | .eoo =>
                simp at h
                rw [← h.2.2]
                exact hs
            | .val comp =>
                simp only at h
                cases hu : updateIdx nts isSet isDet idx comp with
                | error e => rw [hu] at h; simp at h
                | ok idx2 =>
                    rw [hu] at h
                    exact (ih.recI _ _ _ _ _ _ _ _ _ _ h).trans hs
            | .noVal => simp at h
            | .raw c => simp at h
      · -- seqOfLoopDef
        intro elem origPos len children bs c rest h
        simp only [seqOfLoopDef] at h
        split at h
        · cases hc : singleItemDecode fuel bs (some (.one elem)) none
              false false with
          | error e => rw [hc] at h; simp at h
          | ok p =>
              rw [hc] at h
              obtain ⟨o1, r1⟩ := p
              have hs : r1 <:+ bs := ih.single _ _ _ _ _ _ _ hc
              match o1 with
              | .val (some c2) => exact (ih.sofD _ _ _ _ _ _ _ h).trans hs
              | .val none => simp at h
              | .eoo => simp at h
              | .noVal => simp at h
              | .raw c2 => simp at h
        · simp at h
          rw [← h.2]
      · -- seqOfLoopIndef
        intro elem children bs c rest h
        simp only [seqOfLoopIndef] at h
        cases hc : singleItemDecode fuel bs (some (.one elem)) none
            true false with
        | error e => rw [hc] at h; simp at h
        | ok p =>
            rw [hc] at h
            obtain ⟨o1, r1⟩ := p
            have hs : r1 <:+ bs := ih.single _ _ _ _ _ _ _ hc
            match o1 with
            | .eoo =>
                simp at h
                rw [← h.2]
                exact hs
            | .val (some c2) => exact (ih.sofI _ _ _ _ _ h).trans hs
            | .val none => simp at h
            | .noVal => simp at h
            | .raw c2 => simp at h

/-- C2: the one-shot API consumes exactly one top-level value and
returns the pair of the decoded value and the trailing unconsumed octets
(possibly empty) — the returned trailing octets are always a suffix of
the input, the consumed part being the prefix holding the one decoded
TLV; when the input is exhausted before the value is complete, the
underrun is raised as an error instead of any partial value being
returned.  The concrete inputs show a non-empty tail being returned
untouched and a truncated input being rejected. -/
theorem one_shot_decode_contract :
    (∀ bs spec out rest, decode bs spec = .ok (out, rest) →
        ∃ consumed, bs = consumed ++ rest) ∧
    (∀ bs spec, singleItemDecode (defaultFuel bs) bs spec none false false =
        .error .underrun → decode bs spec = .error .underrun) ∧
    decode [0x05, 0x00, 0xAB, 0xCD] none =
      .ok (.val (some (.nullV ⟨none, [⟨0, 0, 5⟩]⟩)), [0xAB, 0xCD]) ∧
    decode [0x30, 0x05, 0x02, 0x01] none = .error .underrun := by
  refine ⟨?_, ?_, by rfl, by rfl⟩
  · intro bs spec out rest h
    obtain ⟨consumed, hc⟩ :=
      (suffixFacts (defaultFuel bs)).single bs spec none false false out rest h
    exact ⟨consumed, hc.symm⟩
  · intro bs spec h
    exact h

/-- Witness for C2: decoding `05 00` with the trailing octet `09`. -/
theorem one_shot_decode_contract_witness :
    ∃ consumed, ([0x05, 0x00, 0x09] : List Nat) = consumed ++ [0x09] :=
  one_shot_decode_contract.1 [0x05, 0x00, 0x09] none
    (.val (some (.nullV ⟨none, [⟨0, 0, 5⟩]⟩))) [0x09] (by rfl)

end PyAsn1
